import Mathlib

/-!
A verification development for the `oscquery` crate (an OSCQuery server).

The Rust sources are embedded shallowly:

* machine floats (`f32`/`f64`) are carried as opaque bit patterns (`F32`,
  `F64`); no property below computes with float arithmetic;
* the interior-mutable value cells (`Arc<dyn Get<T>>`, `Arc<dyn Set<T>>`,
  `Arc<dyn GetSet<T>>`) are modelled by the value currently stored in the
  underlying cell, and a write produces an updated parameter list (explicit
  state passing);
* `petgraph::stable_graph::StableGraph` is modelled by an association list of
  node ids plus a list of parent→child edges, newest first (matching the
  iteration order of `neighbors` used by the source);
* a `panic!`/`unimplemented!()` is modelled by an `Option`-`none` result;
* the bounded namespace-change channel (`sync_channel`, `try_send`) is
  modelled by a flag saying whether a channel is registered plus the list of
  events successfully sent over it.
-/

namespace OscQuery

/-- Alias for the builtin string type, used in signatures where an inductive
constructor named `String` would otherwise shadow it. -/
abbrev Str := String

/-- Alias for the builtin bool type, used in signatures where an inductive
constructor named `Bool` would otherwise shadow it. -/
abbrev Boolean := Bool

/-- A 32-bit IEEE float carried as its bit pattern (`f32` in the source). -/
structure F32 where
  bits : Nat
deriving DecidableEq

/-- A 64-bit IEEE float carried as its bit pattern (`f64` in the source). -/
structure F64 where
  bits : Nat
deriving DecidableEq

/-- `rosc::OscMidiMessage` (four `u8` fields). -/
structure OscMidiMessage where
  port : Nat
  status : Nat
  data1 : Nat
  data2 : Nat
deriving DecidableEq

/-- `rosc::OscType`: OSC argument values.  `OscArray` is inlined as the list
of its `content`; `OscColor` is inlined as its four `u8` fields; `Time`
carries the `(u32, u32)` pair of seconds and fraction. -/
inductive OscType where
| Int (v : Int)
| Float (v : F32)
| String (v : String)
| Blob (v : List Nat)
| Time (v : Nat × Nat)
| Long (v : Int)
| Double (v : F64)
| Char (v : Char)
| Color (red green blue alpha : Nat)
| Midi (v : OscMidiMessage)
| Bool (v : Bool)
| Array (content : List OscType)
| Nil
| Inf

/-- `value::ClipMode`. -/
inductive ClipMode where
| None
| Low
| High
| Both
deriving DecidableEq

/-- `value::Range<T>`. -/
inductive Range (T : Type) where
| None
| Min (v : T)
| Max (v : T)
| MinMax (lo hi : T)
| Vals (vs : List T)

/-- `value::Value<V, T>`: a stored value with clip mode, range and optional
unit.  The capability wrapper `V` (`Arc<dyn Get<T>>` etc.) is replaced by the
value currently stored in the underlying cell. -/
structure Value (T : Type) where
  value : T
  clip_mode : ClipMode
  range : Range T
  unit : Option String

/-- Build a `Value` with the builder's defaults (`ValueBuilder::new(..).build()`). -/
def Value.plain {T : Type} (v : T) : Value T :=
  { value := v, clip_mode := ClipMode.None, range := Range.None, unit := none }

/-- `param::ParamGet`: read-only parameters.  Each constructor carries the
`Value` wrapper for the corresponding Rust type (`Midi` stores the
`(u8,u8,u8,u8)` tuple, `Array` the content of the stored `OscArray`). -/
inductive ParamGet where
| Int (v : Value Int)
| Float (v : Value F32)
| String (v : Value String)
| Time (v : Value (Nat × Nat))
| Long (v : Value Int)
| Double (v : Value F64)
| Char (v : Value Char)
| Midi (v : Value (Nat × Nat × Nat × Nat))
| Bool (v : Value Bool)
| Array (v : Value (List OscType))

/-- `param::ParamSet`: write-only parameters.  The source wraps
`Arc<dyn Set<T>>`; the model carries the value currently stored in the
underlying cell, which the source's `ParamSet` cannot read. -/
inductive ParamSet where
| Int (v : Value Int)
| Float (v : Value F32)
| String (v : Value String)
| Time (v : Value (Nat × Nat))
| Long (v : Value Int)
| Double (v : Value F64)
| Char (v : Value Char)
| Midi (v : Value (Nat × Nat × Nat × Nat))
| Bool (v : Value Bool)
| Array (v : Value (List OscType))

/-- `param::ParamGetSet`: read-write parameters. -/
inductive ParamGetSet where
| Int (v : Value Int)
| Float (v : Value F32)
| String (v : Value String)
| Time (v : Value (Nat × Nat))
| Long (v : Value Int)
| Double (v : Value F64)
| Char (v : Value Char)
| Midi (v : Value (Nat × Nat × Nat × Nat))
| Bool (v : Value Bool)
| Array (v : Value (List OscType))

/-- `node::Node`: tree items.  `H` is the type of the user write handler
(`UpdateHandler` is an arbitrary trait object in the source, so the model is
parametric in it). -/
inductive Node (H : Type) where
| Container (address : String) (description : Option String)
| Get (address : String) (description : Option String) (params : List ParamGet)
| Set (address : String) (description : Option String) (params : List ParamSet)
    (handler : Option H)
| GetSet (address : String) (description : Option String) (params : List ParamGetSet)
    (handler : Option H)

/-- `node::Access`. -/
inductive Access where
| NoValue
| ReadOnly
| WriteOnly
| ReadWrite
deriving DecidableEq

/-- `Node::access`. -/
def Node.access {H : Type} : Node H → Access
| .Container _ _ => Access.NoValue
| .Get _ _ _ => Access.ReadOnly
| .Set _ _ _ _ => Access.WriteOnly
| .GetSet _ _ _ _ => Access.ReadWrite

/-- `Node::address`. -/
def Node.address {H : Type} : Node H → String
| .Container a _ => a
| .Get a _ _ => a
| .Set a _ _ _ => a
| .GetSet a _ _ _ => a

/-- `Node::description`. -/
def Node.description {H : Type} : Node H → Option String
| .Container _ d => d
| .Get _ d _ => d
| .Set _ d _ _ => d
| .GetSet _ d _ _ => d

/-- `node::address_valid`: an address must not contain `/`. -/
def address_valid (address : String) : Except String String :=
  if address.contains '/' then Except.error "invalid address" else Except.ok address

/-- `OSCTypeStr for OscType` (`param.rs`): the OSC tag character(s) of a
value; `Bool` renders as `T`/`F` by its value; `Array` brackets the tags of
its content. -/
def OscType.osc_type_str : OscType → Str
| .Int _ => "i"
| .Float _ => "f"
| .String _ => "s"
| .Blob _ => "b"
| .Time _ => "t"
| .Long _ => "h"
| .Double _ => "d"
| .Char _ => "c"
| .Color _ _ _ _ => "r"
| .Midi _ => "m"
| .Bool v => if v then "T" else "F"
| .Array content => "[" ++ strList content ++ "]"
| .Nil => "N"
| .Inf => "I"
where strList : List OscType → Str
| [] => ""
| x :: xs => x.osc_type_str ++ strList xs

/-- `OSCTypeStr for ParamGet`: builds a stand-in `OscType` and takes its tag
string; for `Bool` and `Array` the stand-in carries the current value. -/
def ParamGet.osc_type_str : ParamGet → Str
| .Int _ => (OscType.Int 0).osc_type_str
| .Float _ => (OscType.Float ⟨0⟩).osc_type_str
| .String _ => (OscType.String "").osc_type_str
| .Time _ => (OscType.Time (0, 0)).osc_type_str
| .Long _ => (OscType.Long 0).osc_type_str
| .Double _ => (OscType.Double ⟨0⟩).osc_type_str
| .Char _ => (OscType.Char 'a').osc_type_str
| .Midi _ => (OscType.Midi ⟨0, 0x80, 0, 0⟩).osc_type_str
| .Bool v => (OscType.Bool v.value).osc_type_str
| .Array v => (OscType.Array v.value).osc_type_str

/-- `OSCTypeStr for ParamSet`: as the `ParamGet` instance, but the source
cannot read a write-only value, so `Bool` uses the constant `false` and
`Array` the empty array. -/
def ParamSet.osc_type_str : ParamSet → Str
| .Int _ => (OscType.Int 0).osc_type_str
| .Float _ => (OscType.Float ⟨0⟩).osc_type_str
| .String _ => (OscType.String "").osc_type_str
| .Time _ => (OscType.Time (0, 0)).osc_type_str
| .Long _ => (OscType.Long 0).osc_type_str
| .Double _ => (OscType.Double ⟨0⟩).osc_type_str
| .Char _ => (OscType.Char 'a').osc_type_str
| .Midi _ => (OscType.Midi ⟨0, 0x80, 0, 0⟩).osc_type_str
| .Bool _ => (OscType.Bool false).osc_type_str
| .Array _ => (OscType.Array []).osc_type_str

/-- `OSCTypeStr for ParamGetSet`: reads the current value for `Bool`/`Array`
like the `ParamGet` instance. -/
def ParamGetSet.osc_type_str : ParamGetSet → Str
| .Int _ => (OscType.Int 0).osc_type_str
| .Float _ => (OscType.Float ⟨0⟩).osc_type_str
| .String _ => (OscType.String "").osc_type_str
| .Time _ => (OscType.Time (0, 0)).osc_type_str
| .Long _ => (OscType.Long 0).osc_type_str
| .Double _ => (OscType.Double ⟨0⟩).osc_type_str
| .Char _ => (OscType.Char 'a').osc_type_str
| .Midi _ => (OscType.Midi ⟨0, 0x80, 0, 0⟩).osc_type_str
| .Bool v => (OscType.Bool v.value).osc_type_str
| .Array v => (OscType.Array v.value).osc_type_str

/-- `Node::type_string`: `None` for a container, else the left fold
concatenating each parameter's tag characters in order. -/
def Node.type_string {H : Type} : Node H → Option String
| .Container _ _ => none
| .Get _ _ params => some (params.foldl (fun acc x => acc ++ x.osc_type_str) "")
| .Set _ _ params _ => some (params.foldl (fun acc x => acc ++ x.osc_type_str) "")
| .GetSet _ _ params _ => some (params.foldl (fun acc x => acc ++ x.osc_type_str) "")

/-- One step of the `impl_osc_render` loop for a `ParamGet`: the `OscType`
pushed for this parameter's current value. -/
def ParamGet.render : ParamGet → OscType
| .Int v => OscType.Int v.value
| .Float v => OscType.Float v.value
| .String v => OscType.String v.value
| .Time v => OscType.Time v.value
| .Long v => OscType.Long v.value
| .Double v => OscType.Double v.value
| .Char v => OscType.Char v.value
| .Midi v => OscType.Midi ⟨v.value.1, v.value.2.1, v.value.2.2.1, v.value.2.2.2⟩
| .Bool v => OscType.Bool v.value
| .Array v => OscType.Array v.value

/-- One step of the `impl_osc_render` loop for a `ParamGetSet`. -/
def ParamGetSet.render : ParamGetSet → OscType
| .Int v => OscType.Int v.value
| .Float v => OscType.Float v.value
| .String v => OscType.String v.value
| .Time v => OscType.Time v.value
| .Long v => OscType.Long v.value
| .Double v => OscType.Double v.value
| .Char v => OscType.Char v.value
| .Midi v => OscType.Midi ⟨v.value.1, v.value.2.1, v.value.2.2.1, v.value.2.2.2⟩
| .Bool v => OscType.Bool v.value
| .Array v => OscType.Array v.value

/-- `OscRender for Node`: `Container` and `Set` render nothing; `Get` and
`GetSet` append one typed item per parameter, in order. -/
def Node.osc_render {H : Type} : Node H → List OscType
| .Container _ _ => []
| .Set _ _ _ _ => []
| .Get _ _ params => params.map ParamGet.render
| .GetSet _ _ params _ => params.map ParamGetSet.render

/-- One iteration of the `impl_osc_update` zip loop for a `ParamSet` paired
with one incoming arg: a matching kind writes the value through, a
non-matching supported kind leaves the parameter unchanged, and the
`Blob`/`Color`/`Array`/`Nil`/`Inf` arm hits `unimplemented!()`, modelled by
`none`. -/
def ParamSet.update_with : ParamSet → OscType → Option ParamSet
| p, .Int v =>
  some (match p with
        | .Int s => ParamSet.Int { s with value := v }
        | _ => p)
| p, .Float v =>
  some (match p with
        | .Float s => ParamSet.Float { s with value := v }
        | _ => p)
| p, .String v =>
  some (match p with
        | .String s => ParamSet.String { s with value := v }
        | _ => p)
| p, .Time v =>
  some (match p with
        | .Time s => ParamSet.Time { s with value := v }
        | _ => p)
| p, .Long v =>
  some (match p with
        | .Long s => ParamSet.Long { s with value := v }
        | _ => p)
| p, .Double v =>
  some (match p with
        | .Double s => ParamSet.Double { s with value := v }
        | _ => p)
| p, .Char v =>
  some (match p with
        | .Char s => ParamSet.Char { s with value := v }
        | _ => p)
| p, .Midi v =>
  some (match p with
        | .Midi s => ParamSet.Midi { s with value := (v.port, v.status, v.data1, v.data2) }
        | _ => p)
| p, .Bool v =>
  some (match p with
        | .Bool s => ParamSet.Bool { s with value := v }
        | _ => p)
| _, .Blob _ => none
| _, .Color _ _ _ _ => none
| _, .Array _ => none
| _, .Nil => none
| _, .Inf => none

/-- One iteration of the `impl_osc_update` zip loop for a `ParamGetSet`. -/
def ParamGetSet.update_with : ParamGetSet → OscType → Option ParamGetSet
| p, .Int v =>
  some (match p with
        | .Int s => ParamGetSet.Int { s with value := v }
        | _ => p)
| p, .Float v =>
  some (match p with
        | .Float s => ParamGetSet.Float { s with value := v }
        | _ => p)
| p, .String v =>
  some (match p with
        | .String s => ParamGetSet.String { s with value := v }
        | _ => p)
| p, .Time v =>
  some (match p with
        | .Time s => ParamGetSet.Time { s with value := v }
        | _ => p)
| p, .Long v =>
  some (match p with
        | .Long s => ParamGetSet.Long { s with value := v }
        | _ => p)
| p, .Double v =>
  some (match p with
        | .Double s => ParamGetSet.Double { s with value := v }
        | _ => p)
| p, .Char v =>
  some (match p with
        | .Char s => ParamGetSet.Char { s with value := v }
        | _ => p)
| p, .Midi v =>
  some (match p with
        | .Midi s => ParamGetSet.Midi { s with value := (v.port, v.status, v.data1, v.data2) }
        | _ => p)
| p, .Bool v =>
  some (match p with
        | .Bool s => ParamGetSet.Bool { s with value := v }
        | _ => p)
| _, .Blob _ => none
| _, .Color _ _ _ _ => none
| _, .Array _ => none
| _, .Nil => none
| _, .Inf => none

/-- The whole `impl_osc_update` zip loop over a `ParamSet` list: parameters
are paired with args positionally, extra parameters or extra args are left
alone; `none` models the loop aborting in `unimplemented!()`. -/
def osc_update_params : List ParamSet → List OscType → Option (List ParamSet)
| [], _ => some []
| ps, [] => some ps
| p :: ps, a :: rest =>
  match p.update_with a with
  | none => none
  | some p' =>
    match osc_update_params ps rest with
    | none => none
    | some ps' => some (p' :: ps')

/-- The whole `impl_osc_update` zip loop over a `ParamGetSet` list. -/
def osc_update_params_getset : List ParamGetSet → List OscType → Option (List ParamGetSet)
| [], _ => some []
| ps, [] => some ps
| p :: ps, a :: rest =>
  match p.update_with a with
  | none => none
  | some p' =>
    match osc_update_params_getset ps rest with
    | none => none
    | some ps' => some (p' :: ps')

/-- `OscUpdate for Node` (through `impl_osc_update!` for `Set`/`GetSet`).
`hrun` gives the semantics of the user handler `H`: from the incoming args,
the source address and the time it may return a deferred mutator of type
`M`.  The result is `none` when the dispatch loop panics; otherwise it is
the optional deferred mutator returned by the handler (invoked first, before
the zip loop) together with the node holding the updated parameters.
`Container` and `Get` nodes return no callback and are unchanged. -/
def Node.osc_update {H M A : Type} (hrun : H → List OscType → Option A → Option (Nat × Nat) → Option M) :
    Node H → List OscType → Option A → Option (Nat × Nat) → Option (Option M × Node H)
| n@(.Container _ _), _, _, _ => some (none, n)
| n@(.Get _ _ _), _, _, _ => some (none, n)
| .Set a d params handler, args, addr, time =>
  let cb : Option M :=
    match handler with
    | some h => hrun h args addr time
    | none => none
  match osc_update_params params args with
  | none => none
  | some params' => some (cb, Node.Set a d params' handler)
| .GetSet a d params handler, args, addr, time =>
  let cb : Option M :=
    match handler with
    | some h => hrun h args addr time
    | none => none
  match osc_update_params_getset params args with
  | none => none
  | some params' => some (cb, Node.GetSet a d params' handler)

/-! ### JSON model and value-snapshot serialization (`param.rs`) -/

/-- The serde data model as far as this crate's serializers use it.  Distinct
constructors record which `serialize_*` method produced a JSON number. -/
inductive Json where
| null
| bool (b : Bool)
| str (s : String)
| i32 (v : Int)
| i64 (v : Int)
| u8 (v : Nat)
| u16 (v : Nat)
| u32 (v : Nat)
| u64 (v : Nat)
| f32 (v : F32)
| f64 (v : F64)
| arr (items : List Json)
| obj (entries : List (String × Json))

/-- All of serde's `serialize_i32/i64/u8/u64/f32/f64` yield JSON numbers. -/
def Json.isNumber : Json → Bool
| .i32 _ => true
| .i64 _ => true
| .u8 _ => true
| .u16 _ => true
| .u32 _ => true
| .u64 _ => true
| .f32 _ => true
| .f64 _ => true
| _ => false

/-- One uppercase hex digit. -/
def hexDigit (n : Nat) : Char :=
  if n < 10 then Char.ofNat (48 + n) else Char.ofNat (55 + n)

/-- A byte as two uppercase hex digits (`{:02X}`). -/
def hex2 (n : Nat) : String :=
  String.mk [hexDigit (n / 16 % 16), hexDigit (n % 16)]

/-- `Serialize for OscTypeWrapper` (`param.rs`): how one `OscType` value is
rendered to JSON.  `Time` becomes the unsigned 64-bit number
`(seconds <<< 32) ||| fraction`; `Midi`, `Blob`, `Nil` and `Inf` serialize as
`none` (JSON null); `Array` recurses over its content. -/
def OscTypeWrapper.json : OscType → Json
| .Int v => .i32 v
| .Float v => .f32 v
| .String v => .str v
| .Blob _ => .null
| .Time v => .u64 ((v.1 <<< 32) ||| v.2)
| .Long v => .i64 v
| .Double v => .f64 v
| .Char v => .str (String.mk [v])
| .Color red green blue alpha =>
  .str ("#" ++ hex2 red ++ hex2 green ++ hex2 blue ++ hex2 alpha)
| .Midi _ => .null
| .Bool v => .bool v
| .Array content => .arr (jsonList content)
| .Nil => .null
| .Inf => .null
where jsonList : List OscType → List Json
| [] => []
| x :: xs => OscTypeWrapper.json x :: jsonList xs

/-- `Serialize for ParamGetValueWrapper` (`impl_value_ser!`): the parameter's
current value is rebuilt as an `OscType` (the same per-kind mapping as
`ParamGet.render`) and serialized through `OscTypeWrapper`. -/
def ParamGetValueWrapper.json (p : ParamGet) : Json :=
  OscTypeWrapper.json p.render

/-- `Serialize for ParamGetSetValueWrapper` (`impl_value_ser!`). -/
def ParamGetSetValueWrapper.json (p : ParamGetSet) : Json :=
  OscTypeWrapper.json p.render

/-! ### Specification-side definitions for the dispatch claims -/

/-- The arg kinds the dispatch loop of `impl_osc_update!` handles without
reaching the `unimplemented!()` arm. -/
def OscType.dispatch_supported : OscType → Boolean
| .Blob _ => false
| .Color _ _ _ _ => false
| .Array _ => false
| .Nil => false
| .Inf => false
| _ => true

/-- Spec-side predicate: the arg kind matches the parameter kind (the
`if let` guard of the dispatch loop succeeds and the value is written). -/
def ParamSet.kind_matches : ParamSet → OscType → Boolean
| .Int _, .Int _ => true
| .Float _, .Float _ => true
| .String _, .String _ => true
| .Time _, .Time _ => true
| .Long _, .Long _ => true
| .Double _, .Double _ => true
| .Char _, .Char _ => true
| .Midi _, .Midi _ => true
| .Bool _, .Bool _ => true
| _, _ => false

/-- Spec-side write-through of one positional pair, written from the spec's
words: a matching-kind arg stores its value into the parameter, any other
arg leaves the parameter unchanged. -/
def ParamSet.spec_write : ParamSet → OscType → ParamSet
| .Int s, .Int v => .Int { s with value := v }
| .Float s, .Float v => .Float { s with value := v }
| .String s, .String v => .String { s with value := v }
| .Time s, .Time v => .Time { s with value := v }
| .Long s, .Long v => .Long { s with value := v }
| .Double s, .Double v => .Double { s with value := v }
| .Char s, .Char v => .Char { s with value := v }
| .Midi s, .Midi m => .Midi { s with value := (m.port, m.status, m.data1, m.data2) }
| .Bool s, .Bool v => .Bool { s with value := v }
| p, _ => p

/-- Spec-side dispatch, written from the spec's words: args are paired with
parameters positionally; each pair is written through `spec_write`;
parameters beyond the incoming args are untouched. -/
def dispatch_spec : List ParamSet → List OscType → List ParamSet
| [], _ => []
| ps, [] => ps
| p :: ps, x :: xs => p.spec_write x :: dispatch_spec ps xs

/-- Spec-side write-through of one positional pair for `ParamGetSet`. -/
def ParamGetSet.spec_write : ParamGetSet → OscType → ParamGetSet
| .Int s, .Int v => .Int { s with value := v }
| .Float s, .Float v => .Float { s with value := v }
| .String s, .String v => .String { s with value := v }
| .Time s, .Time v => .Time { s with value := v }
| .Long s, .Long v => .Long { s with value := v }
| .Double s, .Double v => .Double { s with value := v }
| .Char s, .Char v => .Char { s with value := v }
| .Midi s, .Midi m => .Midi { s with value := (m.port, m.status, m.data1, m.data2) }
| .Bool s, .Bool v => .Bool { s with value := v }
| p, _ => p

/-- Spec-side dispatch for `ParamGetSet` lists. -/
def dispatch_spec_getset : List ParamGetSet → List OscType → List ParamGetSet
| [], _ => []
| ps, [] => ps
| p :: ps, x :: xs => p.spec_write x :: dispatch_spec_getset ps xs

/-! ### The namespace tree (`root.rs`) -/

/-- `root::NamespaceChange`. -/
inductive NamespaceChange where
| PathAdded (path : String)
| PathRemoved (path : String)
deriving DecidableEq

/-- `root::NodeWrapper`: a node together with its materialized full path. -/
structure NodeWrapper (H : Type) where
  full_path : String
  node : Node H

/-- `root::RootInner`.  The `StableGraph` is modelled by `nodes` (an
association list over stable ids handed out by the counter `nextId`) and
`edges` (parent→child pairs, newest first, matching the iteration order of
`neighbors(..).detach()`).  `ns_change_send` says whether a namespace-change
channel is registered and `events` lists what was sent over it. -/
structure RootInner (H : Type) where
  name : Option String
  nextId : Nat
  nodes : List (Nat × NodeWrapper H)
  edges : List (Nat × Nat)
  root : Nat
  index_map : List (String × Nat)
  ns_change_send : Bool
  events : List NamespaceChange

variable {H : Type}

/-- `graph.node_weight(i)`. -/
def lookupNode (s : RootInner H) (i : Nat) : Option (NodeWrapper H) :=
  (s.nodes.find? (fun e => e.1 == i)).map (·.2)

/-- The children of `i`, newest first (`graph.neighbors(i)`). -/
def childrenOf (s : RootInner H) (i : Nat) : List Nat :=
  (s.edges.filter (fun e => e.1 == i)).map (·.2)

/-- `HashMap::insert` on the path→id map (replace any entry at the key). -/
def mapInsert (m : List (String × Nat)) (k : String) (v : Nat) : List (String × Nat) :=
  (k, v) :: m.filter (fun e => e.1 != k)

/-- `HashMap::remove` on the path→id map. -/
def mapRemove (m : List (String × Nat)) (k : String) : List (String × Nat) :=
  m.filter (fun e => e.1 != k)

/-- `RootInner::new`: the synthetic root node `/` at id 0. -/
def RootInner.new (name : Option String) : RootInner H :=
  { name := name
    nextId := 1
    nodes := [(0, ⟨"/", Node.Container "" (some "root node")⟩)]
    edges := []
    root := 0
    index_map := [("/", 0)]
    ns_change_send := false
    events := [] }

/-- `RootInner::ns_change_recv`: registering the namespace-change channel. -/
def RootInner.ns_change_recv (s : RootInner H) : RootInner H :=
  { s with ns_change_send := true }

/-- `try_send` on the namespace-change channel when one is registered. -/
def RootInner.emit (s : RootInner H) (c : NamespaceChange) : RootInner H :=
  if s.ns_change_send then { s with events := s.events ++ [c] } else s

/-- Result of `RootInner::add_node`.  `panicked` models petgraph's
`add_edge` panic (`parent = None` with the root node previously removed):
the node and its map entry were already inserted when the panic fires, and
the lock is poisoned afterwards. -/
inductive AddResult (H : Type) where
| ok (s : RootInner H) (handle : Nat)
| err (node : Node H) (msg : String)
| panicked (s : RootInner H)

/-- The body of `RootInner::add_node` once the parent index and parent path
are resolved: materialize `full_path = parent_path ++ "/" ++ address`,
insert the node and its map entry, add the parent edge (panicking when the
parent index is not in the graph, which `add_node` only risks for
`parent = None` with a removed root), and emit `PathAdded`. -/
def RootInner.add_node_at (s : RootInner H) (node : Node H) (parent_index : Nat)
    (parent_path : String) : AddResult H :=
  let full_path := parent_path ++ "/" ++ node.address
  let index := s.nextId
  let s1 : RootInner H :=
    { s with
      nextId := s.nextId + 1
      nodes := (index, ⟨full_path, node⟩) :: s.nodes
      index_map := mapInsert s.index_map full_path index }
  if (lookupNode s parent_index).isSome then
    AddResult.ok
      (RootInner.emit { s1 with edges := (parent_index, index) :: s1.edges }
        (NamespaceChange.PathAdded full_path))
      index
  else
    AddResult.panicked s1

/-- `RootInner::add_node`: a `Some` parent must be live and contributes its
full path; `None` uses `self.root` with parent path `""`. -/
def RootInner.add_node (s : RootInner H) (node : Node H) (parent : Option Nat) : AddResult H :=
  match parent with
  | some p =>
    match lookupNode s p with
    | none => AddResult.err node "parent not in graph"
    | some pw => s.add_node_at node p pw.full_path
  | none => s.add_node_at node s.root ""

/-- One `graph.remove_node` step of `rm_node` once the children are gone:
drop the node and its incident edges, remove its map entry, emit
`PathRemoved`. -/
def RootInner.remove_one (s : RootInner H) (i : Nat) (w : NodeWrapper H) : RootInner H :=
  RootInner.emit
    { s with
      nodes := s.nodes.filter (fun e => e.1 != i)
      edges := s.edges.filter (fun e => e.1 != i && e.2 != i)
      index_map := mapRemove s.index_map w.full_path }
    (NamespaceChange.PathRemoved w.full_path)

/-- The child loop of `RootInner::rm_node`: each child subtree is removed in
turn by the callback `g` and the returned vectors are appended.  A child
removal that fails is the `expect("child should be in graph")` panic,
modelled by `none`. -/
def rmChildren (g : RootInner H → Nat → Option (Except Unit (RootInner H × List (Node H)))) :
    RootInner H → List Nat → Option (RootInner H × List (Node H))
| s, [] => some (s, [])
| s, c :: cs =>
  match g s c with
  | some (Except.ok (s1, v1)) =>
    match rmChildren g s1 cs with
    | some (s2, v2) => some (s2, v1 ++ v2)
    | none => none
  | _ => none

/-- `RootInner::rm_node`, recursion made explicit with fuel (the recursion
depth is bounded by the node count on any well-formed tree): remove the
children's subtrees first, then the node itself; a dead handle yields
`Except.error`.  `none` is fuel exhaustion, which never occurs with the fuel
`rm_node` supplies on well-formed trees. -/
def rmNodeA : Nat → RootInner H → Nat → Option (Except Unit (RootInner H × List (Node H)))
| 0, _, _ => none
| f + 1, s, i =>
  match rmChildren (rmNodeA f) s (childrenOf s i) with
  | none => none
  | some (s1, v) =>
    match lookupNode s1 i with
    | some w => some (Except.ok (s1.remove_one i w, v ++ [w.node]))
    | none => some (Except.error ())

/-- `RootInner::rm_node` at the fuel the tree's size warrants. -/
def RootInner.rm_node (s : RootInner H) (handle : Nat) :
    Except Unit (RootInner H × List (Node H)) :=
  match rmNodeA (s.nodes.length + 1) s handle with
  | some r => r
  | none => Except.error ()

/-- `RootInner::handle_to_path`. -/
def RootInner.handle_to_path (s : RootInner H) (handle : Nat) : Option String :=
  (lookupNode s handle).map (·.full_path)

/-- `RootInner::with_node_at_path`: the node and its id at a full path, via
the path→id map. -/
def RootInner.node_at_path (s : RootInner H) (path : String) :
    Option (NodeWrapper H × Nat) :=
  match s.index_map.find? (fun e => e.1 == path) with
  | some e => (lookupNode s e.2).map (fun w => (w, e.2))
  | none => none

/-- A handle refers to a live node. -/
def alive (s : RootInner H) (i : Nat) : Prop :=
  (lookupNode s i).isSome = true

/-- Well-formedness of the tree state; every state reachable from
`RootInner.new` by `add_node`/`rm_node` satisfies it: distinct stable ids,
edges between live nodes added parent-before-child (so child ids exceed
parent ids), at most one parent per node, the root is never a child, all ids
are below the counter, map keys are distinct and every map entry resolves to
a live node whose `full_path` is the key. -/
def WF (s : RootInner H) : Prop :=
  (s.nodes.map Prod.fst).Nodup ∧
  (∀ e ∈ s.edges, alive s e.1 ∧ alive s e.2 ∧ e.1 < e.2) ∧
  (s.edges.map Prod.snd).Nodup ∧
  (∀ e ∈ s.edges, e.2 ≠ s.root) ∧
  (∀ e ∈ s.nodes, e.1 < s.nextId) ∧
  s.root < s.nextId ∧
  (s.index_map.map Prod.fst).Nodup ∧
  (∀ pe ∈ s.index_map, (lookupNode s pe.2).map (·.full_path) = some pe.1)

instance (s : RootInner H) (i : Nat) : Decidable (alive s i) := by
  unfold alive
  infer_instance

instance (s : RootInner H) : Decidable (WF s) := by
  unfold WF
  infer_instance

/-- `Desc s a b`: `b` lies in the subtree rooted at `a` (the
reflexive-transitive closure of the parent→child edges). -/
inductive Desc (s : RootInner H) (a : Nat) : Nat → Prop
| refl : Desc s a a
| step {b c : Nat} : Desc s a b → (b, c) ∈ s.edges → Desc s a c

/-- The full paths of a list of (live) ids, in order. -/
def pathsOf (s : RootInner H) (ids : List Nat) : List String :=
  ids.filterMap (fun i => (lookupNode s i).map (·.full_path))

/-- The nodes of a list of (live) ids, in order. -/
def nodesOf (s : RootInner H) (ids : List Nat) : List (Node H) :=
  ids.filterMap (fun i => (lookupNode s i).map (·.node))

/-- Batch removal of a set of ids: what a run of `rm_node` does to the state
when it removes exactly `ids`, in that order. -/
def removeIds (s : RootInner H) (ids : List Nat) : RootInner H :=
  { s with
    nodes := s.nodes.filter (fun e => !(ids.contains e.1))
    edges := s.edges.filter (fun e => !(ids.contains e.1) && !(ids.contains e.2))
    index_map := s.index_map.filter (fun e => !((pathsOf s ids).contains e.1))
    events :=
      if s.ns_change_send then
        s.events ++ (pathsOf s ids).map NamespaceChange.PathRemoved
      else s.events }

/-- Concatenation of a traversal over a list of roots. -/
def postList (g : Nat → List Nat) : List Nat → List Nat
| [] => []
| c :: cs => g c ++ postList g cs

/-- The static post-order traversal of the subtree rooted at `i` (children
first, newest child first, the node itself last), with fuel. -/
def postN : Nat → RootInner H → Nat → List Nat
| 0, _, _ => []
| f + 1, s, i => postList (postN f s) (childrenOf s i) ++ [i]

/-- How many live ids are ≥ `i`; on a well-formed tree this bounds the
height of the subtree at `i`, since child ids exceed parent ids. -/
def countGe (s : RootInner H) (i : Nat) : Nat :=
  s.nodes.countP (fun e => decide (i ≤ e.1))

/-! ### The OSC service (`service/osc.rs`) and facade (`server.rs`) -/

/-- `rosc::OscMessage`. -/
structure OscMessage where
  addr : String
  args : List OscType

/-- `OscService::render_and_send`: render the node's current values into a
message addressed at its full path (encoding and the UDP sends to the
registered peers are outside the model; `rosc::encoder::encode` succeeds on
every message an `osc_render` produces). -/
def OscService.render_and_send (w : NodeWrapper H) : OscMessage :=
  { addr := w.full_path, args := w.node.osc_render }

/-- `OscService::trigger`: render-and-send for the node at a handle, if any. -/
def OscService.trigger (s : RootInner H) (handle : Nat) : Option OscMessage :=
  (lookupNode s handle).map OscService.render_and_send

/-- `OscService::trigger_path`: render-and-send for the node at a path, if
any. -/
def OscService.trigger_path (s : RootInner H) (path : String) : Option OscMessage :=
  (s.node_at_path path).map (fun wi => OscService.render_and_send wi.1)

/-- `OscQueryServer::trigger`: true iff the OSC service rendered a message
(which is then also broadcast to the WebSocket sessions). -/
def OscQueryServer.trigger (s : RootInner H) (handle : Nat) : Bool :=
  (OscService.trigger s handle).isSome

/-- `OscQueryServer::trigger_path`. -/
def OscQueryServer.trigger_path (s : RootInner H) (path : String) : Bool :=
  (OscService.trigger_path s path).isSome

/-! ### Operation sequences over the tree (for the tree invariants) -/

/-- One public mutating operation on the tree. -/
inductive Op (H : Type) where
| add (node : Node H) (parent : Option Nat)
| rm (handle : Nat)

/-- A run of operations: the state, the log of `(id, full_path)` pairs
recorded at the moment each node was inserted, and whether a panic has
poisoned the lock (after which every operation fails without touching the
tree, as `Root`'s lock wrappers surface poisoned-lock errors). -/
structure RunState (H : Type) where
  st : RootInner H
  log : List (Nat × String)
  poisoned : Bool

/-- Apply one operation to a run. -/
def runStep (r : RunState H) (op : Op H) : RunState H :=
  if r.poisoned then r
  else
    match op with
    | Op.add n parent =>
      match r.st.add_node n parent with
      | AddResult.ok s' h =>
        { st := s', log := r.log ++ [(h, (s'.handle_to_path h).getD "")], poisoned := false }
      | AddResult.err _ _ => r
      | AddResult.panicked s' =>
        { st := s'
          log := r.log ++ [(r.st.nextId, (s'.handle_to_path r.st.nextId).getD "")]
          poisoned := true }
    | Op.rm h =>
      match r.st.rm_node h with
      | Except.ok (s', _) => { r with st := s' }
      | Except.error _ => r

/-- The initial run: a fresh tree (with the namespace-change channel
registered) whose only node is the root at `/`. -/
def initRun : RunState H :=
  { st := (RootInner.new none).ns_change_recv, log := [(0, "/")], poisoned := false }

/-- Run a sequence of operations against an empty tree. -/
def runOps (ops : List (Op H)) : RunState H :=
  ops.foldl runStep initRun

/-- The operation does not insert a node at a full path some live node
already has. -/
def freshCond (r : RunState H) : Op H → Bool
| Op.add n parent =>
  (match r.st.add_node n parent with
   | AddResult.ok s' h =>
     r.st.nodes.all (fun e => e.2.full_path != (s'.handle_to_path h).getD "")
   | AddResult.panicked s' =>
     r.st.nodes.all
       (fun e => e.2.full_path != (s'.handle_to_path r.st.nextId).getD "")
   | AddResult.err _ _ => true)
| Op.rm _ => true

/-- The run never inserts a node at a full path some live node already has
(this rules out the documented sibling-address collision, where `add_node`
overwrites the map entry for the shared path). -/
def freshRun : RunState H → List (Op H) → Bool
| _, [] => true
| r, op :: rest => freshCond r op && freshRun (runStep r op) rest

/-- The run invariant: the tree is well-formed and every live node was
logged, at insertion time, with exactly its current full path. -/
def InvBase (r : RunState H) : Prop :=
  WF r.st ∧ (∀ e ∈ r.st.nodes, (e.1, e.2.full_path) ∈ r.log)

/-- The stronger invariant available on collision-free runs: live full paths
are pairwise distinct and every live node has the map entry for its path. -/
def InvPaths (r : RunState H) : Prop :=
  (r.st.nodes.map (fun e => e.2.full_path)).Nodup ∧
  (∀ e ∈ r.st.nodes, (e.2.full_path, e.1) ∈ r.st.index_map)

instance (r : RunState H) : Decidable (InvBase r) := by
  unfold InvBase
  infer_instance

instance (r : RunState H) : Decidable (InvPaths r) := by
  unfold InvPaths
  infer_instance

/-! ### Two-phase packet handling (`root.rs`) -/

/-- `rosc::OscPacket`: a message or a time-tagged bundle of packets. -/
inductive OscPacket where
| Message (msg : OscMessage)
| Bundle (timetag : Nat × Nat) (content : List OscPacket)

mutual

/-- `RootInner::handle_osc_packet_inner`, the read-phase walk.  `upd`
abstracts `handle_osc_msg` on the (read-locked, unchanged) tree: from the
message address, args, source address and time it may produce a deferred
mutator of type `M`.  A bundle processes its content in order, passing its
own timetag to each nested packet, collects every returned callback, and
returns a composite that runs them in that order (modelled by the list of
collected mutator lists, flattened). -/
def handle_osc_packet_inner {M A : Type}
    (upd : String → List OscType → Option A → Option (Nat × Nat) → Option M) :
    OscPacket → Option A → Option (Nat × Nat) → Option (List M)
| OscPacket.Message msg, addr, time =>
  match upd msg.addr msg.args addr time with
  | some cb => some [cb]
  | none => none
| OscPacket.Bundle timetag content, addr, _time =>
  let callbacks := collectInner upd content addr timetag
  if callbacks.isEmpty then none else some callbacks.flatten

/-- The bundle loop of `handle_osc_packet_inner`: push each packet's
callback, skipping packets that return none. -/
def collectInner {M A : Type}
    (upd : String → List OscType → Option A → Option (Nat × Nat) → Option M) :
    List OscPacket → Option A → (Nat × Nat) → List (List M)
| [], _, _ => []
| p :: ps, addr, timetag =>
  match handle_osc_packet_inner upd p addr (some timetag) with
  | some cb => cb :: collectInner upd ps addr timetag
  | none => collectInner upd ps addr timetag

end

/-- `RootInner::handle_osc_packet`, the two phases: walk the packet under
the read lock collecting the deferred mutators, then (write lock) run the
collected mutators in arrival order against the tree state. -/
def handle_osc_packet {M A σ : Type}
    (upd : String → List OscType → Option A → Option (Nat × Nat) → Option M)
    (run : σ → M → σ) (st : σ) (p : OscPacket) (addr : Option A)
    (time : Option (Nat × Nat)) : σ :=
  match handle_osc_packet_inner upd p addr time with
  | none => st
  | some cbs => cbs.foldl run st

mutual

/-- Specification-side flattening, written from the spec's words: the
messages contained in a packet, in order, each paired with the timetag of
its innermost enclosing bundle (or the ambient time for a bare message). -/
def collect_messages : OscPacket → Option (Nat × Nat) →
    List (OscMessage × Option (Nat × Nat))
| OscPacket.Message msg, time => [(msg, time)]
| OscPacket.Bundle timetag content, _ => collect_list content timetag

/-- Specification-side flattening of a bundle's content. -/
def collect_list : List OscPacket → (Nat × Nat) →
    List (OscMessage × Option (Nat × Nat))
| [], _ => []
| p :: ps, timetag => collect_messages p (some timetag) ++ collect_list ps timetag

end

/-! ### The HTTP service (`service/http.rs`) and the node JSON rendering -/

/-- `node::NodeQueryParam`: the recognized `?ATTR` query values. -/
inductive NodeQueryParam where
| Value
| «Type»
| Range
| ClipMode
| Access
| Description
| Unit
deriving DecidableEq

/-- serde's `Deserialize` of `NodeQueryParam` from the query string (the
variant names, `rename_all = "UPPERCASE"`); any other string is a
deserialization error. -/
def parseNodeQueryParam (q : String) : Option NodeQueryParam :=
  if q == "VALUE" then some NodeQueryParam.Value
  else if q == "TYPE" then some NodeQueryParam.«Type»
  else if q == "RANGE" then some NodeQueryParam.Range
  else if q == "CLIPMODE" then some NodeQueryParam.ClipMode
  else if q == "ACCESS" then some NodeQueryParam.Access
  else if q == "DESCRIPTION" then some NodeQueryParam.Description
  else if q == "UNIT" then some NodeQueryParam.Unit
  else none

/-- `Serialize for Access` (`node.rs`): the numeric access code as `u8`. -/
def Access.u8 : Access → Nat
| .NoValue => 0
| .ReadOnly => 1
| .WriteOnly => 2
| .ReadWrite => 3

/-- An `Option<String>` as serde renders it (`null` or the string). -/
def optStrJson : Option String → Json
| none => Json.null
| some s => Json.str s

/-- `Serialize for Range<T>` (`value.rs`), abstracted over the element
serializer. -/
def Range.json {T : Type} (elem : T → Json) : Range T → Json
| .None => Json.obj []
| .Min v => Json.obj [("MIN", elem v)]
| .Max v => Json.obj [("MAX", elem v)]
| .MinMax lo hi => Json.obj [("MIN", elem lo), ("MAX", elem hi)]
| .Vals vs => Json.obj [("VALS", Json.arr (vs.map elem))]

/-- `Serialize for ClipMode` (`rename_all = "lowercase"`). -/
def ClipMode.json : ClipMode → Json
| .None => Json.str "none"
| .Low => Json.str "low"
| .High => Json.str "high"
| .Both => Json.str "both"

/-- `impl_range_ser!` for `ParamGet` (`param.rs`): the per-kind element
serializers follow serde for the stored Rust types (`(u32, u32)` is a
two-element array, a `char` a one-character string); `Midi` has no range
(null) and `Array` serializes the one-element list holding
`Range::<()>::None` (an empty map). -/
def ParamGetRangeWrapper.json : ParamGet → Json
| .Int v => v.range.json (fun x => Json.i32 x)
| .Float v => v.range.json (fun x => Json.f32 x)
| .String v => v.range.json Json.str
| .Time v => v.range.json (fun t => Json.arr [Json.u32 t.1, Json.u32 t.2])
| .Long v => v.range.json (fun x => Json.i64 x)
| .Double v => v.range.json (fun x => Json.f64 x)
| .Char v => v.range.json (fun c => Json.str (String.mk [c]))
| .Midi _ => Json.null
| .Bool v => v.range.json Json.bool
| .Array _ => Json.arr [Json.obj []]

/-- `impl_range_ser!` for `ParamSet`. -/
def ParamSetRangeWrapper.json : ParamSet → Json
| .Int v => v.range.json (fun x => Json.i32 x)
| .Float v => v.range.json (fun x => Json.f32 x)
| .String v => v.range.json Json.str
| .Time v => v.range.json (fun t => Json.arr [Json.u32 t.1, Json.u32 t.2])
| .Long v => v.range.json (fun x => Json.i64 x)
| .Double v => v.range.json (fun x => Json.f64 x)
| .Char v => v.range.json (fun c => Json.str (String.mk [c]))
| .Midi _ => Json.null
| .Bool v => v.range.json Json.bool
| .Array _ => Json.arr [Json.obj []]

/-- `impl_range_ser!` for `ParamGetSet`. -/
def ParamGetSetRangeWrapper.json : ParamGetSet → Json
| .Int v => v.range.json (fun x => Json.i32 x)
| .Float v => v.range.json (fun x => Json.f32 x)
| .String v => v.range.json Json.str
| .Time v => v.range.json (fun t => Json.arr [Json.u32 t.1, Json.u32 t.2])
| .Long v => v.range.json (fun x => Json.i64 x)
| .Double v => v.range.json (fun x => Json.f64 x)
| .Char v => v.range.json (fun c => Json.str (String.mk [c]))
| .Midi _ => Json.null
| .Bool v => v.range.json Json.bool
| .Array _ => Json.arr [Json.obj []]

/-- `impl_clip_mode_ser!` for `ParamGet`: `Midi` is null, `Array` the
one-element list holding `ClipMode::None`. -/
def ParamGetClipModeWrapper.json : ParamGet → Json
| .Int v => v.clip_mode.json
| .Float v => v.clip_mode.json
| .String v => v.clip_mode.json
| .Time v => v.clip_mode.json
| .Long v => v.clip_mode.json
| .Double v => v.clip_mode.json
| .Char v => v.clip_mode.json
| .Midi _ => Json.null
| .Bool v => v.clip_mode.json
| .Array _ => Json.arr [Json.str "none"]

/-- `impl_clip_mode_ser!` for `ParamSet`. -/
def ParamSetClipModeWrapper.json : ParamSet → Json
| .Int v => v.clip_mode.json
| .Float v => v.clip_mode.json
| .String v => v.clip_mode.json
| .Time v => v.clip_mode.json
| .Long v => v.clip_mode.json
| .Double v => v.clip_mode.json
| .Char v => v.clip_mode.json
| .Midi _ => Json.null
| .Bool v => v.clip_mode.json
| .Array _ => Json.arr [Json.str "none"]

/-- `impl_clip_mode_ser!` for `ParamGetSet`. -/
def ParamGetSetClipModeWrapper.json : ParamGetSet → Json
| .Int v => v.clip_mode.json
| .Float v => v.clip_mode.json
| .String v => v.clip_mode.json
| .Time v => v.clip_mode.json
| .Long v => v.clip_mode.json
| .Double v => v.clip_mode.json
| .Char v => v.clip_mode.json
| .Midi _ => Json.null
| .Bool v => v.clip_mode.json
| .Array _ => Json.arr [Json.str "none"]

/-- `impl_unit_ser!` for `ParamGet`: `Midi` is null, `Array` the one-element
list holding `Option::<()>::None`. -/
def ParamGetUnitWrapper.json : ParamGet → Json
| .Int v => optStrJson v.unit
| .Float v => optStrJson v.unit
| .String v => optStrJson v.unit
| .Time v => optStrJson v.unit
| .Long v => optStrJson v.unit
| .Double v => optStrJson v.unit
| .Char v => optStrJson v.unit
| .Midi _ => Json.null
| .Bool v => optStrJson v.unit
| .Array _ => Json.arr [Json.null]

/-- `impl_unit_ser!` for `ParamSet`. -/
def ParamSetUnitWrapper.json : ParamSet → Json
| .Int v => optStrJson v.unit
| .Float v => optStrJson v.unit
| .String v => optStrJson v.unit
| .Time v => optStrJson v.unit
| .Long v => optStrJson v.unit
| .Double v => optStrJson v.unit
| .Char v => optStrJson v.unit
| .Midi _ => Json.null
| .Bool v => optStrJson v.unit
| .Array _ => Json.arr [Json.null]

/-- `impl_unit_ser!` for `ParamGetSet`. -/
def ParamGetSetUnitWrapper.json : ParamGetSet → Json
| .Int v => optStrJson v.unit
| .Float v => optStrJson v.unit
| .String v => optStrJson v.unit
| .Time v => optStrJson v.unit
| .Long v => optStrJson v.unit
| .Double v => optStrJson v.unit
| .Char v => optStrJson v.unit
| .Midi _ => Json.null
| .Bool v => optStrJson v.unit
| .Array _ => Json.arr [Json.null]

/-- `Serialize for NodeValueWrapper` (`node.rs`): `Set` and `Container`
serialize `none`, `Get`/`GetSet` the sequence of their parameters' current
values. -/
def NodeValueWrapper.json {H : Type} : Node H → Json
| .Set _ _ _ _ => Json.null
| .Container _ _ => Json.null
| .Get _ _ params => Json.arr (params.map ParamGetValueWrapper.json)
| .GetSet _ _ params _ => Json.arr (params.map ParamGetSetValueWrapper.json)

/-- `Serialize for NodeRangeWrapper`. -/
def NodeRangeWrapper.json {H : Type} : Node H → Json
| .Container _ _ => Json.null
| .Get _ _ params => Json.arr (params.map ParamGetRangeWrapper.json)
| .Set _ _ params _ => Json.arr (params.map ParamSetRangeWrapper.json)
| .GetSet _ _ params _ => Json.arr (params.map ParamGetSetRangeWrapper.json)

/-- `Serialize for NodeClipModeWrapper`. -/
def NodeClipModeWrapper.json {H : Type} : Node H → Json
| .Container _ _ => Json.null
| .Get _ _ params => Json.arr (params.map ParamGetClipModeWrapper.json)
| .Set _ _ params _ => Json.arr (params.map ParamSetClipModeWrapper.json)
| .GetSet _ _ params _ => Json.arr (params.map ParamGetSetClipModeWrapper.json)

/-- `Serialize for NodeUnitWrapper`. -/
def NodeUnitWrapper.json {H : Type} : Node H → Json
| .Container _ _ => Json.null
| .Get _ _ params => Json.arr (params.map ParamGetUnitWrapper.json)
| .Set _ _ params _ => Json.arr (params.map ParamSetUnitWrapper.json)
| .GetSet _ _ params _ => Json.arr (params.map ParamGetSetUnitWrapper.json)

/-- `Serialize for NodeSerializeWrapper` (`root.rs`), with explicit fuel for
the `CONTENTS` recursion of `NodeSerializeContentsWrapper` (node ids of
children exceed their parent's, so on well-formed trees the node count
bounds the depth and the fuel `serialize_node` supplies never runs out).
With no query param the full map is rendered (`DESCRIPTION` omitted when
absent, `VALUE` only for `Get`/`GetSet`, `CONTENTS` only for a `Container`,
`TYPE`/`RANGE`/`CLIPMODE`/`UNIT` only for non-containers); with a param only
the one attribute is rendered, and a param that does not apply to the node
kind serializes `none` (JSON null). -/
def NodeSerializeWrapper.json {H : Type} :
    Nat → RootInner H → Nat → NodeWrapper H → Option NodeQueryParam → Json
| 0, _, _, _, _ => Json.null
| fuel + 1, s, i, w, none =>
  Json.obj
    ([("ACCESS", Json.u8 w.node.access.u8)]
      ++ (match w.node.description with
          | some d => [("DESCRIPTION", Json.str d)]
          | none => [])
      ++ [("FULL_PATH", Json.str w.full_path)]
      ++ (match w.node with
          | Node.Get _ _ _ => [("VALUE", NodeValueWrapper.json w.node)]
          | Node.GetSet _ _ _ _ => [("VALUE", NodeValueWrapper.json w.node)]
          | _ => [])
      ++ (match w.node with
          | Node.Container _ _ =>
            [("CONTENTS", Json.obj ((childrenOf s i).filterMap
              (fun c => (lookupNode s c).map
                (fun cw => (cw.node.address, NodeSerializeWrapper.json fuel s c cw none)))))]
          | _ =>
            (match w.node.type_string with
             | some t => [("TYPE", Json.str t)]
             | none => [])
            ++ [("RANGE", NodeRangeWrapper.json w.node),
                ("CLIPMODE", NodeClipModeWrapper.json w.node),
                ("UNIT", NodeUnitWrapper.json w.node)]))
| _ + 1, _, _, w, some NodeQueryParam.Access =>
  Json.obj [("ACCESS", Json.u8 w.node.access.u8)]
| _ + 1, _, _, w, some NodeQueryParam.Description =>
  Json.obj [("DESCRIPTION", optStrJson w.node.description)]
| _ + 1, _, _, w, some NodeQueryParam.Value =>
  match w.node with
  | Node.Get _ _ _ => Json.obj [("VALUE", NodeValueWrapper.json w.node)]
  | Node.GetSet _ _ _ _ => Json.obj [("VALUE", NodeValueWrapper.json w.node)]
  | _ => Json.null
| _ + 1, _, _, w, some NodeQueryParam.Range =>
  match w.node with
  | Node.Container _ _ => Json.null
  | _ => Json.obj [("RANGE", NodeRangeWrapper.json w.node)]
| _ + 1, _, _, w, some NodeQueryParam.ClipMode =>
  match w.node with
  | Node.Container _ _ => Json.null
  | _ => Json.obj [("CLIPMODE", NodeClipModeWrapper.json w.node)]
| _ + 1, _, _, w, some NodeQueryParam.«Type» =>
  match w.node with
  | Node.Container _ _ => Json.null
  | _ => Json.obj [("TYPE", optStrJson w.node.type_string)]
| _ + 1, _, _, w, some NodeQueryParam.Unit =>
  match w.node with
  | Node.Container _ _ => Json.null
  | _ => Json.obj [("UNIT", NodeUnitWrapper.json w.node)]

/-- `Serialize for PathSerializeWrapper` (`service/http.rs`) composed with
`RootInner::serialize_node` (`root.rs`): look the path up in the path→id
map, then the id up in the graph; if either misses, the wrapped closure is
called with `None` and returns a custom serialization **error** (`"path not
in namespace"`), modelled by `none` — an unknown path does not serialize to
JSON null. -/
def PathSerializeWrapper.json {H : Type} (s : RootInner H) (path : String)
    (param : Option NodeQueryParam) : Option Json :=
  match s.index_map.find? (fun e => e.1 == path) with
  | some e =>
    match lookupNode s e.2 with
    | some w => some (NodeSerializeWrapper.json (s.nodes.length + 1) s e.2 w param)
    | none => none
  | none => none

/-- `Extensions::default()` (with `with_ws` applied when a WebSocket address
is configured), serialized with `rename_all = "UPPERCASE"` in declaration
order. -/
def Extensions.json (ws : Bool) : Json :=
  Json.obj
    [("ACCESS", Json.bool true), ("VALUE", Json.bool true),
     ("RANGE", Json.bool true), ("DESCRIPTION", Json.bool true),
     ("CLIPMODE", Json.bool true), ("UNIT", Json.bool true),
     ("LISTEN", Json.bool ws), ("PATH_CHANGED", Json.bool false),
     ("PATH_RENAMED", Json.bool false), ("PATH_ADDED", Json.bool ws),
     ("PATH_REMOVED", Json.bool ws), ("TAGS", Json.bool false),
     ("EXTENDED_TYPE", Json.bool false), ("CRITICAL", Json.bool false),
     ("OVERLOADS", Json.bool false), ("HTML", Json.bool false)]

/-- `Serialize for HostInfoWrapper`: a socket address is carried as its IP
rendered to a string and its `u16` port. -/
def host_info_json (name : Option String) (osc ws : Option (String × Nat)) : Json :=
  Json.obj
    ((match name with
      | some n => [("NAME", Json.str n)]
      | none => [])
      ++ (match osc with
          | some a => [("OSC_TRANSPORT", Json.str "UDP"), ("OSC_IP", Json.str a.1),
                       ("OSC_PORT", Json.u16 a.2)]
          | none => [])
      ++ (match ws with
          | some a => [("WS_IP", Json.str a.1), ("WS_PORT", Json.u16 a.2)]
          | none => [])
      ++ [("EXTENSIONS", Extensions.json ws.isSome)])

/-- `hyper::Method`, as far as `Svc::call` distinguishes it. -/
inductive HttpMethod where
| GET
| POST
| PUT
| DELETE
| HEAD
deriving DecidableEq

/-- An incoming HTTP request: method, URI path and optional URI query. -/
structure HttpRequest where
  method : HttpMethod
  path : String
  query : Option String

/-- A response body: empty, a rendered JSON value, or plain error text. -/
inductive HttpBody where
| empty
| json (j : Json)
| text (t : String)

/-- An HTTP response: status, whether the `application/json` content-type
header was set, and the body. -/
structure HttpResponse where
  status : Nat
  contentTypeJson : Bool
  body : HttpBody

/-- The serde error text for an unrecognized `NodeQueryParam` query
(`e.to_string()` is the body of the 400 response). -/
def unknownVariantError (q : String) : String :=
  "unknown variant `" ++ q
    ++ "`, expected one of `VALUE`, `TYPE`, `RANGE`, `CLIPMODE`, `ACCESS`, `DESCRIPTION`, `UNIT`"

/-- `struct Svc`: the HTTP handler's state (the tree and the advertised
OSC/WebSocket addresses). -/
structure Svc (H : Type) where
  root : RootInner H
  osc : Option (String × Nat)
  ws : Option (String × Nat)

/-- The tail of `Svc::call` shared by the query-less and parsed-query paths:
serialize the node at the path; a serialization error (unknown path) falls
through to the 404/empty default, JSON null gives 204/empty, and any other
value 200 with the JSON body and content-type header. -/
def Svc.respond {H : Type} (s : RootInner H) (path : String)
    (param : Option NodeQueryParam) : HttpResponse :=
  match PathSerializeWrapper.json s path param with
  | none => { status := 404, contentTypeJson := false, body := HttpBody.empty }
  | some Json.null => { status := 204, contentTypeJson := false, body := HttpBody.empty }
  | some j => { status := 200, contentTypeJson := true, body := HttpBody.json j }

/-- `Svc::call` (`service/http.rs`): GET with query `HOST_INFO` returns the
host info (200); any other query must parse as a `NodeQueryParam` or the
response is 400 with the serde error text; then the path is serialized as in
`Svc.respond`.  A non-GET request takes the `unwrap_or` default: 404 with an
empty body. -/
def Svc.call {H : Type} (svc : Svc H) (req : HttpRequest) : HttpResponse :=
  match req.method with
  | HttpMethod.GET =>
    match req.query with
    | some q =>
      if q == "HOST_INFO" then
        { status := 200, contentTypeJson := false
          body := HttpBody.json (host_info_json svc.root.name svc.osc svc.ws) }
      else
        match parseNodeQueryParam q with
        | none =>
          { status := 400, contentTypeJson := false
            body := HttpBody.text (unknownVariantError q) }
        | some p => Svc.respond svc.root req.path (some p)
    | none => Svc.respond svc.root req.path none
  | _ => { status := 404, contentTypeJson := false, body := HttpBody.empty }

/-- A concrete tree for witnesses: one container `foo` added under the root
of a fresh tree (its handle is 1). -/
def exampleTree : RootInner Unit :=
  match (RootInner.new (some "test")).ns_change_recv.add_node
      (Node.Container "foo" none) none with
  | AddResult.ok s _ => s
  | AddResult.err _ _ => (RootInner.new (some "test")).ns_change_recv
  | AddResult.panicked s => s

/-- A concrete HTTP handler state over `exampleTree`, with no OSC or
WebSocket addresses advertised. -/
def svcEx : Svc Unit := { root := exampleTree, osc := none, ws := none }

/-- One add of a container `foo` under the root (a collision-free run). -/
def opsOne : List (Op Unit) := [Op.add (Node.Container "foo" none) none]

/-- Two adds of containers with the same address `foo` under the root (the
documented sibling-address collision). -/
def opsDup : List (Op Unit) :=
  [Op.add (Node.Container "foo" none) none, Op.add (Node.Container "foo" none) none]

/-! ## Helper lemmas -/

theorem countP_lt_of_mem {α : Type} {p q : α → Bool} :
    ∀ {l : List α}, (∀ a ∈ l, p a = true → q a = true) →
      ∀ {x}, x ∈ l → q x = true → p x = false → l.countP p < l.countP q := by
  intro l
  induction l with
  | nil => intro _ x hx; simp at hx
  | cons a l ih =>
    intro himp x hx hqx hpx
    rcases List.mem_cons.mp hx with rfl | hx'
    · have h1 : l.countP p ≤ l.countP q :=
        List.countP_mono_left (fun b hb => himp b (by simp [hb]))
      simp [List.countP_cons, hpx, hqx]
      omega
    · have h2 := ih (fun b hb => himp b (by simp [hb])) hx' hqx hpx
      have h3 : (if p a = true then 1 else 0) ≤ (if q a = true then 1 else 0) := by
        by_cases hpa : p a = true
        · simp [hpa, himp a (by simp) hpa]
        · simp [hpa]
      simp [List.countP_cons]
      omega

theorem find?_filter_of_imp {α : Type} {p q : α → Bool} :
    ∀ (l : List α), (∀ a, p a = true → q a = true) →
      (l.filter q).find? p = l.find? p := by
  intro l himp
  induction l with
  | nil => rfl
  | cons a l ih =>
    by_cases hpa : p a = true
    · have hqa := himp a hpa
      simp [List.filter_cons, hqa, List.find?_cons, hpa, ih]
    · have hpa' : p a = false := by revert hpa; cases p a <;> simp
      by_cases hqa : q a = true
      · simp [List.filter_cons, hqa, List.find?_cons, hpa', ih]
      · have hqa' : q a = false := by revert hqa; cases q a <;> simp
        simp [List.filter_cons, hqa', List.find?_cons, hpa', ih]

theorem lookupNode_mem {s : RootInner H} {i : Nat} {w : NodeWrapper H}
    (h : lookupNode s i = some w) : (i, w) ∈ s.nodes := by
  unfold lookupNode at h
  cases hf : s.nodes.find? (fun e => e.1 == i) with
  | none => simp [hf] at h
  | some e =>
    have hm := List.mem_of_find?_eq_some hf
    have hp := List.find?_some hf
    simp at hp
    simp [hf] at h
    cases e with
    | mk k v =>
      simp at hp
      subst hp
      simp at h
      subst h
      exact hm

theorem alive_iff_mem_keys {s : RootInner H} {i : Nat} :
    alive s i ↔ i ∈ s.nodes.map Prod.fst := by
  unfold alive lookupNode
  constructor
  · intro h
    cases hf : s.nodes.find? (fun e => e.1 == i) with
    | none => simp [hf] at h
    | some e =>
      have hm := List.mem_of_find?_eq_some hf
      have hp := List.find?_some hf
      simp at hp
      exact List.mem_map.mpr ⟨e, hm, hp⟩
  · intro h
    rcases List.mem_map.mp h with ⟨e, he, hk⟩
    have : s.nodes.find? (fun x => x.1 == i) |>.isSome := by
      apply List.find?_isSome.mpr
      exact ⟨e, he, by simp [hk]⟩
    cases hf : s.nodes.find? (fun x => x.1 == i) with
    | none => rw [hf] at this; simp at this
    | some e' => simp [hf]

theorem alive_of_lookup {s : RootInner H} {i : Nat} {w : NodeWrapper H}
    (h : lookupNode s i = some w) : alive s i := by
  unfold alive
  simp [h]

theorem lookupNode_of_mem {s : RootInner H} (hnd : (s.nodes.map Prod.fst).Nodup)
    {i : Nat} {w : NodeWrapper H} (h : (i, w) ∈ s.nodes) : lookupNode s i = some w := by
  have hal : alive s i := alive_iff_mem_keys.mpr (List.mem_map.mpr ⟨(i, w), h, rfl⟩)
  unfold alive at hal
  cases hl : lookupNode s i with
  | none => rw [hl] at hal; simp at hal
  | some w' =>
    have hm' := lookupNode_mem hl
    have heq : ((i, w') : Nat × NodeWrapper H) = (i, w) :=
      List.inj_on_of_nodup_map hnd hm' h rfl
    simp at heq
    rw [heq]

theorem childrenOf_mem {s : RootInner H} {i c : Nat} :
    c ∈ childrenOf s i ↔ (i, c) ∈ s.edges := by
  unfold childrenOf
  constructor
  · intro h
    rcases List.mem_map.mp h with ⟨e, he, hc⟩
    have := List.mem_filter.mp he
    have h1 : e.1 = i := by simpa using this.2
    have : (e.1, e.2) ∈ s.edges := this.1
    rw [h1, hc] at this
    exact this
  · intro h
    exact List.mem_map.mpr ⟨(i, c), List.mem_filter.mpr ⟨h, by simp⟩, rfl⟩

theorem childrenOf_nodup {s : RootInner H} (h : (s.edges.map Prod.snd).Nodup)
    (i : Nat) : (childrenOf s i).Nodup := by
  unfold childrenOf
  have hsub : (s.edges.filter (fun e => e.1 == i)).map Prod.snd
      |>.Sublist (s.edges.map Prod.snd) :=
    (List.filter_sublist _).map Prod.snd
  exact hsub.nodup h

theorem parent_unique {s : RootInner H} (h : (s.edges.map Prod.snd).Nodup)
    {p q c : Nat} (hp : (p, c) ∈ s.edges) (hq : (q, c) ∈ s.edges) : p = q := by
  have heq : ((p, c) : Nat × Nat) = (q, c) := List.inj_on_of_nodup_map h hp hq rfl
  exact congrArg Prod.fst heq

theorem Desc.trans' {s : RootInner H} {a b c : Nat}
    (h1 : Desc s a b) (h2 : Desc s b c) : Desc s a c := by
  induction h2 with
  | refl => exact h1
  | step _ he ih => exact Desc.step ih he

theorem Desc.le_of_wf {s : RootInner H} (hwf : WF s) {a b : Nat}
    (h : Desc s a b) : a ≤ b := by
  induction h with
  | refl => exact le_rfl
  | step _ he ih =>
    have := (hwf.2.1 _ he).2.2
    omega

theorem Desc.inv {s : RootInner H} {a b : Nat} (h : Desc s a b) :
    a = b ∨ ∃ p, Desc s a p ∧ (p, b) ∈ s.edges := by
  cases h with
  | refl => exact Or.inl rfl
  | step hd he => exact Or.inr ⟨_, hd, he⟩

theorem desc_alive {s : RootInner H} (hwf : WF s) {a b : Nat}
    (ha : alive s a) (h : Desc s a b) : alive s b := by
  induction h with
  | refl => exact ha
  | step _ he _ => exact (hwf.2.1 _ he).2.1

theorem desc_sibling_disjoint {s : RootInner H} (hwf : WF s) {i c₁ c₂ j : Nat}
    (h1 : (i, c₁) ∈ s.edges) (h2 : (i, c₂) ∈ s.edges) (hne : c₁ ≠ c₂)
    (d1 : Desc s c₁ j) (d2 : Desc s c₂ j) : False := by
  revert d2
  induction d1 with
  | refl =>
    intro d2
    rcases d2.inv with rfl | ⟨p, hp, he⟩
    · exact hne rfl
    · have hpi : p = i := parent_unique hwf.2.2.1 he h1
      have hle : c₂ ≤ p := hp.le_of_wf hwf
      have hlt : i < c₂ := (hwf.2.1 _ h2).2.2
      omega
  | step d1' he ih =>
    rename_i b j2
    intro d2
    rcases d2.inv with rfl | ⟨p, hp, he2⟩
    · have hbi : b = i := parent_unique hwf.2.2.1 he h2
      have hle : c₁ ≤ b := d1'.le_of_wf hwf
      have hlt : i < c₁ := (hwf.2.1 _ h1).2.2
      omega
    · have hpb : p = b := parent_unique hwf.2.2.1 he2 he
      exact ih (hpb ▸ hp)

theorem mem_postList {g : Nat → List Nat} :
    ∀ {cs : List Nat} {j : Nat}, j ∈ postList g cs ↔ ∃ c ∈ cs, j ∈ g c := by
  intro cs j
  induction cs with
  | nil => simp [postList]
  | cons c cs ih => simp [postList, ih]

theorem countGe_le_length (s : RootInner H) (i : Nat) :
    countGe s i ≤ s.nodes.length :=
  List.countP_le_length _

theorem countGe_pos_of_alive {s : RootInner H} {i : Nat} (h : alive s i) :
    0 < countGe s i := by
  have hm : i ∈ s.nodes.map Prod.fst := alive_iff_mem_keys.mp h
  rcases List.mem_map.mp hm with ⟨e, he, hk⟩
  exact List.countP_pos_iff.mpr ⟨e, he, by simp [hk]⟩

theorem countGe_child_lt {s : RootInner H} (hwf : WF s) {i c : Nat}
    (he : (i, c) ∈ s.edges) : countGe s c < countGe s i := by
  have hic : i < c := (hwf.2.1 _ he).2.2
  have hal : alive s i := (hwf.2.1 _ he).1
  have hm : i ∈ s.nodes.map Prod.fst := alive_iff_mem_keys.mp hal
  rcases List.mem_map.mp hm with ⟨e, hme, hk⟩
  refine countP_lt_of_mem (fun a _ hpa => ?_) hme ?_ ?_
  · simp at hpa ⊢
    omega
  · simp [hk]
  · simp [hk]
    omega

theorem countGe_removeIds_le (s : RootInner H) (D : List Nat) (i : Nat) :
    countGe (removeIds s D) i ≤ countGe s i :=
  (List.filter_sublist _).countP_le _

theorem lookup_removeIds {s : RootInner H} {D : List Nat} {j : Nat}
    (hj : j ∉ D) : lookupNode (removeIds s D) j = lookupNode s j := by
  unfold lookupNode removeIds
  simp only
  rw [find?_filter_of_imp]
  intro a hpa
  simp at hpa
  simp [hpa, hj]

theorem childrenOf_removeIds {s : RootInner H} {D : List Nat} {i : Nat}
    (hi : i ∉ D) (hch : ∀ c, (i, c) ∈ s.edges → c ∉ D) :
    childrenOf (removeIds s D) i = childrenOf s i := by
  unfold childrenOf removeIds
  simp only
  rw [List.filter_filter]
  congr 1
  apply List.filter_congr
  intro e he
  by_cases hei : e.1 = i
  · have he2 : e.2 ∉ D := by
      apply hch
      have : (e.1, e.2) ∈ s.edges := he
      rw [hei] at this
      exact this
    simp [hei, hi, he2]
  · simp [hei]

theorem desc_removeIds_mono {s : RootInner H} {D : List Nat} {a b : Nat}
    (h : Desc (removeIds s D) a b) : Desc s a b := by
  induction h with
  | refl => exact Desc.refl
  | step _ he ih =>
    have : _ ∈ s.edges := (List.mem_filter.mp he).1
    exact Desc.step ih this

theorem removeIds_nil (s : RootInner H) : removeIds s [] = s := by
  cases s
  simp [removeIds, pathsOf]

theorem RootInner.ext' {a b : RootInner H} (h1 : a.name = b.name)
    (h2 : a.nextId = b.nextId) (h3 : a.nodes = b.nodes) (h4 : a.edges = b.edges)
    (h5 : a.root = b.root) (h6 : a.index_map = b.index_map)
    (h7 : a.ns_change_send = b.ns_change_send) (h8 : a.events = b.events) : a = b := by
  cases a; cases b; simp only at *
  subst h1; subst h2; subst h3; subst h4; subst h5; subst h6; subst h7; subst h8
  rfl

theorem removeIds_nodes (s : RootInner H) (D : List Nat) :
    (removeIds s D).nodes = s.nodes.filter (fun e => !(D.contains e.1)) := rfl

theorem removeIds_edges (s : RootInner H) (D : List Nat) :
    (removeIds s D).edges
      = s.edges.filter (fun e => !(D.contains e.1) && !(D.contains e.2)) := rfl

theorem removeIds_map (s : RootInner H) (D : List Nat) :
    (removeIds s D).index_map
      = s.index_map.filter (fun e => !((pathsOf s D).contains e.1)) := rfl

theorem removeIds_events (s : RootInner H) (D : List Nat) :
    (removeIds s D).events
      = (if s.ns_change_send then
          s.events ++ (pathsOf s D).map NamespaceChange.PathRemoved
        else s.events) := rfl

theorem removeIds_compose {s : RootInner H} {d1 d2 : List Nat}
    (hno : ∀ j ∈ d2, j ∉ d1) :
    removeIds (removeIds s d1) d2 = removeIds s (d1 ++ d2) := by
  have hpaths : pathsOf (removeIds s d1) d2 = pathsOf s d2 := by
    apply List.filterMap_congr
    intro j hj
    rw [lookup_removeIds (hno j hj)]
  have hsplit : pathsOf s (d1 ++ d2) = pathsOf s d1 ++ pathsOf s d2 :=
    List.filterMap_append _ _ _
  refine RootInner.ext' rfl rfl ?_ ?_ rfl ?_ rfl ?_
  · rw [removeIds_nodes, removeIds_nodes, removeIds_nodes, List.filter_filter]
    apply List.filter_congr
    intro e _
    by_cases h1 : e.1 ∈ d1 <;> by_cases h2 : e.1 ∈ d2 <;> simp [h1, h2]
  · rw [removeIds_edges, removeIds_edges, removeIds_edges, List.filter_filter]
    apply List.filter_congr
    intro e _
    by_cases h1 : e.1 ∈ d1 <;> by_cases h2 : e.1 ∈ d2 <;>
      by_cases h3 : e.2 ∈ d1 <;> by_cases h4 : e.2 ∈ d2 <;>
        simp [h1, h2, h3, h4]
  · rw [removeIds_map, removeIds_map, hpaths, removeIds_map, List.filter_filter, hsplit]
    apply List.filter_congr
    intro e _
    by_cases h1 : e.1 ∈ pathsOf s d1 <;> by_cases h2 : e.1 ∈ pathsOf s d2 <;>
      simp [h1, h2]
  · rw [removeIds_events, removeIds_events, hpaths, removeIds_events, hsplit]
    have hns : (removeIds s d1).ns_change_send = s.ns_change_send := rfl
    rw [hns]
    by_cases h : s.ns_change_send <;> simp [h]

theorem remove_one_eq_removeIds {s : RootInner H} {i : Nat} {w : NodeWrapper H}
    (h : lookupNode s i = some w) : RootInner.remove_one s i w = removeIds s [i] := by
  have hpaths : pathsOf s [i] = [w.full_path] := by simp [pathsOf, h]
  have hns : ∀ t : RootInner H, ∀ c, (RootInner.emit t c).events
      = (if t.ns_change_send then t.events ++ [c] else t.events) := by
    intro t c
    unfold RootInner.emit
    by_cases hh : t.ns_change_send <;> simp [hh]
  refine RootInner.ext' ?_ ?_ ?_ ?_ ?_ ?_ ?_ ?_
  all_goals
    simp only [RootInner.remove_one, RootInner.emit, removeIds, mapRemove, hpaths]
  · by_cases hh : s.ns_change_send <;> simp [hh]
  · by_cases hh : s.ns_change_send <;> simp [hh]
  · by_cases hh : s.ns_change_send <;>
      simp only [hh, if_true, if_false, ite_true, ite_false] <;>
      · apply List.filter_congr
        intro e _
        by_cases h1 : e.1 = i <;> simp [h1]
  · by_cases hh : s.ns_change_send <;>
      simp only [hh, if_true, if_false, ite_true, ite_false] <;>
      · apply List.filter_congr
        intro e _
        by_cases h1 : e.1 = i <;> by_cases h2 : e.2 = i <;> simp [h1, h2]
  · by_cases hh : s.ns_change_send <;> simp [hh]
  · by_cases hh : s.ns_change_send <;>
      simp only [hh, if_true, if_false, ite_true, ite_false] <;>
      · apply List.filter_congr
        intro e _
        by_cases h1 : e.1 = w.full_path <;> simp [h1]
  · by_cases hh : s.ns_change_send <;> simp [hh]
  · by_cases hh : s.ns_change_send <;> simp [hh]

theorem postN_self_mem {s : RootInner H} {f i : Nat} (hf : 0 < f) :
    i ∈ postN f s i := by
  cases f with
  | zero => omega
  | succ f => simp [postN]

theorem postN_sub_desc {s : RootInner H} :
    ∀ {f i j : Nat}, j ∈ postN f s i → Desc s i j := by
  intro f
  induction f with
  | zero => intro i j h; simp [postN] at h
  | succ f ih =>
    intro i j h
    rw [postN] at h
    rcases List.mem_append.mp h with h1 | h2
    · rcases mem_postList.mp h1 with ⟨c, hc, hj⟩
      exact Desc.trans' (Desc.step Desc.refl (childrenOf_mem.mp hc)) (ih hj)
    · simp at h2
      rw [h2]
      exact Desc.refl

theorem postN_closed {s : RootInner H} (hwf : WF s) :
    ∀ {f i : Nat}, alive s i → countGe s i < f →
      ∀ j ∈ postN f s i, ∀ c, (j, c) ∈ s.edges → c ∈ postN f s i := by
  intro f
  induction f with
  | zero => intro i _ hc; omega
  | succ f ih =>
    intro i hal hcnt j hj c hc
    rw [postN] at hj ⊢
    rcases List.mem_append.mp hj with h1 | h2
    · rcases mem_postList.mp h1 with ⟨c', hc', hj'⟩
      have hic' : (i, c') ∈ s.edges := childrenOf_mem.mp hc'
      have hal' : alive s c' := (hwf.2.1 _ hic').2.1
      have hcnt' : countGe s c' < f := by
        have := countGe_child_lt hwf hic'
        omega
      exact List.mem_append.mpr
        (Or.inl (mem_postList.mpr ⟨c', hc', ih hal' hcnt' j hj' c hc⟩))
    · simp at h2
      have hic : (i, c) ∈ s.edges := h2 ▸ hc
      have hchild := countGe_child_lt hwf hic
      have hf : 0 < f := by omega
      exact List.mem_append.mpr
        (Or.inl (mem_postList.mpr ⟨c, childrenOf_mem.mpr hic, postN_self_mem hf⟩))

theorem postN_complete {s : RootInner H} (hwf : WF s) {f i j : Nat}
    (hal : alive s i) (hcnt : countGe s i < f) (hd : Desc s i j) :
    j ∈ postN f s i := by
  induction hd with
  | refl =>
    have := countGe_pos_of_alive hal
    exact postN_self_mem (by omega)
  | step hd' he ih => exact postN_closed hwf hal hcnt _ ih _ he

theorem postN_mem_iff {s : RootInner H} (hwf : WF s) {f i j : Nat}
    (hal : alive s i) (hcnt : countGe s i < f) :
    j ∈ postN f s i ↔ Desc s i j :=
  ⟨postN_sub_desc, postN_complete hwf hal hcnt⟩

theorem postN_stable {s : RootInner H} {D : List Nat} :
    ∀ {f i : Nat}, (∀ j, Desc s i j → j ∉ D) →
      postN f (removeIds s D) i = postN f s i := by
  intro f
  induction f with
  | zero => intro i _; rfl
  | succ f ih =>
    intro i hyp
    have hi : i ∉ D := hyp i Desc.refl
    have hch : ∀ c, (i, c) ∈ s.edges → c ∉ D := fun c hc => hyp c (Desc.step Desc.refl hc)
    rw [postN, postN, childrenOf_removeIds hi hch]
    congr 1
    have haux : ∀ cs : List Nat, (∀ c ∈ cs, (i, c) ∈ s.edges) →
        postList (postN f (removeIds s D)) cs = postList (postN f s) cs := by
      intro cs
      induction cs with
      | nil => intro _; rfl
      | cons c cs' ihc =>
        intro hcs
        rw [postList, postList]
        rw [ih (fun j hj => hyp j (Desc.trans' (Desc.step Desc.refl (hcs c (by simp))) hj))]
        rw [ihc (fun x hx => hcs x (by simp [hx]))]
    exact haux _ (fun c hc => childrenOf_mem.mp hc)

theorem postN_nodup_pairwise {s : RootInner H} (hwf : WF s) :
    ∀ {f i : Nat}, alive s i → countGe s i < f →
      (postN f s i).Nodup ∧ (postN f s i).Pairwise (fun a b => ¬ Desc s a b) := by
  intro f
  induction f with
  | zero => intro i _ h; omega
  | succ f ih =>
    intro i hal hcnt
    have hblocks : ∀ cs : List Nat, (∀ c ∈ cs, (i, c) ∈ s.edges) → cs.Nodup →
        (postList (postN f s) cs).Nodup ∧
        (postList (postN f s) cs).Pairwise (fun a b => ¬ Desc s a b) ∧
        (∀ j ∈ postList (postN f s) cs, ∃ c ∈ cs, Desc s c j) := by
      intro cs
      induction cs with
      | nil =>
        intro _ _
        exact ⟨List.nodup_nil, List.Pairwise.nil, by simp [postList]⟩
      | cons c cs' ihc =>
        intro hcs hnd
        have hic : (i, c) ∈ s.edges := hcs c (by simp)
        have halc : alive s c := (hwf.2.1 _ hic).2.1
        have hcntc : countGe s c < f := by
          have := countGe_child_lt hwf hic
          omega
        obtain ⟨bn, bp⟩ := ih halc hcntc
        obtain ⟨rn, rp, rmem⟩ := ihc (fun x hx => hcs x (by simp [hx])) (List.nodup_cons.mp hnd).2
        have hcnotin : c ∉ cs' := (List.nodup_cons.mp hnd).1
        have hdisj : ∀ j, j ∈ postN f s c → j ∈ postList (postN f s) cs' → False := by
          intro j hj1 hj2
          rcases rmem j hj2 with ⟨c', hc', hd'⟩
          have hic' : (i, c') ∈ s.edges := hcs c' (by simp [hc'])
          have hnec : c ≠ c' := fun h => hcnotin (h ▸ hc')
          exact desc_sibling_disjoint hwf hic hic' hnec (postN_sub_desc hj1) hd'
        refine ⟨?_, ?_, ?_⟩
        · rw [postList]
          exact List.nodup_append.mpr ⟨bn, rn, fun a ha hb => hdisj a ha hb⟩
        · rw [postList]
          apply List.pairwise_append.mpr
          refine ⟨bp, rp, ?_⟩
          intro a ha b hb hd
          rcases rmem b hb with ⟨c', hc', hd'⟩
          have hic' : (i, c') ∈ s.edges := hcs c' (by simp [hc'])
          have hnec : c ≠ c' := fun h => hcnotin (h ▸ hc')
          exact desc_sibling_disjoint hwf hic hic' hnec
            (Desc.trans' (postN_sub_desc ha) hd) hd'
        · intro j hj
          rw [postList] at hj
          rcases List.mem_append.mp hj with h1 | h2
          · exact ⟨c, by simp, postN_sub_desc h1⟩
          · rcases rmem j h2 with ⟨c', hc', hd'⟩
            exact ⟨c', by simp [hc'], hd'⟩
    obtain ⟨pn, pp, pmem⟩ := hblocks _ (fun c hc => childrenOf_mem.mp hc)
      (childrenOf_nodup hwf.2.2.1 i)
    have hinot : i ∉ postList (postN f s) (childrenOf s i) := by
      intro hmem
      rcases pmem i hmem with ⟨c, hc, hd⟩
      have hic : (i, c) ∈ s.edges := childrenOf_mem.mp hc
      have hle : c ≤ i := hd.le_of_wf hwf
      have hlt : i < c := (hwf.2.1 _ hic).2.2
      omega
    constructor
    · rw [postN]
      apply List.nodup_append.mpr
      refine ⟨pn, List.nodup_singleton i, ?_⟩
      intro a ha hb
      simp at hb
      exact hinot (hb ▸ ha)
    · rw [postN]
      apply List.pairwise_append.mpr
      refine ⟨pp, List.pairwise_singleton _ _, ?_⟩
      intro a ha b hb
      simp at hb
      rw [hb]
      intro hd
      rcases pmem a ha with ⟨c, hc, hdca⟩
      have hic : (i, c) ∈ s.edges := childrenOf_mem.mp hc
      have hle : c ≤ i := (Desc.trans' hdca hd).le_of_wf hwf
      have hlt : i < c := (hwf.2.1 _ hic).2.2
      omega

theorem mem_pathsOf_of_lookup {s : RootInner H} {D : List Nat} {j : Nat}
    {w : NodeWrapper H} (hj : j ∈ D) (h : lookupNode s j = some w) :
    w.full_path ∈ pathsOf s D := by
  unfold pathsOf
  exact List.mem_filterMap.mpr ⟨j, hj, by simp [h]⟩

theorem WF_removeIds {s : RootInner H} (hwf : WF s) (D : List Nat) :
    WF (removeIds s D) := by
  obtain ⟨h1, h2, h3, h4, h5, h6, h7, h8⟩ := hwf
  have hedge_mem : ∀ e ∈ (removeIds s D).edges, e ∈ s.edges := by
    intro e he
    exact (List.mem_filter.mp he).1
  have hedge_notin : ∀ e ∈ (removeIds s D).edges, e.1 ∉ D ∧ e.2 ∉ D := by
    intro e he
    have := (List.mem_filter.mp he).2
    simp at this
    exact this
  refine ⟨?_, ?_, ?_, ?_, ?_, ?_, ?_, ?_⟩
  · exact ((List.filter_sublist _).map Prod.fst).nodup h1
  · intro e he
    obtain ⟨hn1, hn2⟩ := hedge_notin e he
    obtain ⟨ha1, ha2, hlt⟩ := h2 e (hedge_mem e he)
    refine ⟨?_, ?_, hlt⟩
    · unfold alive
      rw [lookup_removeIds hn1]
      exact ha1
    · unfold alive
      rw [lookup_removeIds hn2]
      exact ha2
  · exact ((List.filter_sublist _).map Prod.snd).nodup h3
  · intro e he
    exact h4 e (hedge_mem e he)
  · intro e he
    exact h5 e (List.mem_filter.mp he).1
  · exact h6
  · exact ((List.filter_sublist _).map Prod.fst).nodup h7
  · intro pe hpe
    have hmem : pe ∈ s.index_map := (List.mem_filter.mp hpe).1
    have hpath : pe.1 ∉ pathsOf s D := by
      have := (List.mem_filter.mp hpe).2
      simp at this
      exact this
    have hres := h8 pe hmem
    cases hlw : lookupNode s pe.2 with
    | none => rw [hlw] at hres; simp at hres
    | some w =>
      rw [hlw] at hres
      simp at hres
      have hnotD : pe.2 ∉ D := by
        intro hin
        exact hpath (hres ▸ mem_pathsOf_of_lookup hin hlw)
      rw [lookup_removeIds hnotD, hlw]
      simp [hres]

theorem alive_removeIds {s : RootInner H} {D : List Nat} {j : Nat} (hj : j ∉ D) :
    alive (removeIds s D) j ↔ alive s j := by
  unfold alive
  rw [lookup_removeIds hj]

theorem rmNodeA_run :
    ∀ (f : Nat) (s : RootInner H) (i : Nat), WF s → alive s i → countGe s i < f →
      rmNodeA f s i
        = some (Except.ok (removeIds s (postN f s i), nodesOf s (postN f s i))) := by
  intro f
  induction f using Nat.strong_induction_on with
  | _ f ih =>
    cases f with
    | zero => intro s i _ _ hcnt; omega
    | succ f' =>
      intro s i hwf hal hcnt
      have RC : ∀ (cs : List Nat) (D : List Nat),
          (∀ c ∈ cs, (i, c) ∈ s.edges) → cs.Nodup →
          (∀ c ∈ cs, ∀ j, Desc s c j → j ∉ D) →
          rmChildren (rmNodeA f') (removeIds s D) cs
            = some (removeIds s (D ++ postList (postN f' s) cs),
                nodesOf s (postList (postN f' s) cs)) := by
        intro cs
        induction cs with
        | nil =>
          intro D _ _ _
          simp [rmChildren, postList, nodesOf]
        | cons c cs' ihc =>
          intro D hcs hnd hdis
          have hic : (i, c) ∈ s.edges := hcs c (by simp)
          have halc : alive s c := (hwf.2.1 _ hic).2.1
          have hcntc : countGe s c < f' := by
            have h1 := countGe_child_lt hwf hic
            omega
          have hcD : ∀ j, Desc s c j → j ∉ D := hdis c (by simp)
          have hwf' : WF (removeIds s D) := WF_removeIds hwf D
          have halc' : alive (removeIds s D) c := (alive_removeIds (hcD c Desc.refl)).mpr halc
          have hcntc' : countGe (removeIds s D) c < f' :=
            lt_of_le_of_lt (countGe_removeIds_le s D c) hcntc
          have hrun := ih f' (by omega) (removeIds s D) c hwf' halc' hcntc'
          rw [postN_stable hcD] at hrun
          have hnodesEq : nodesOf (removeIds s D) (postN f' s c) = nodesOf s (postN f' s c) := by
            apply List.filterMap_congr
            intro j hj
            rw [lookup_removeIds (hcD j (postN_sub_desc hj))]
          have hstEq : removeIds (removeIds s D) (postN f' s c)
              = removeIds s (D ++ postN f' s c) :=
            removeIds_compose (fun j hj => hcD j (postN_sub_desc hj))
          rw [hnodesEq, hstEq] at hrun
          have hdis' : ∀ c' ∈ cs', ∀ j, Desc s c' j → j ∉ D ++ postN f' s c := by
            intro c' hc' j hj hmem
            rcases List.mem_append.mp hmem with hD | hP
            · exact hdis c' (by simp [hc']) j hj hD
            · have hic' : (i, c') ∈ s.edges := hcs c' (by simp [hc'])
              have hnec : c ≠ c' := fun h => (List.nodup_cons.mp hnd).1 (h ▸ hc')
              exact desc_sibling_disjoint hwf hic hic' hnec (postN_sub_desc hP) hj
          have hrec := ihc (D ++ postN f' s c) (fun x hx => hcs x (by simp [hx]))
            (List.nodup_cons.mp hnd).2 hdis'
          simp only [rmChildren, hrun, hrec, postList, nodesOf, List.filterMap_append,
            List.append_assoc]
      have hRC := RC (childrenOf s i) [] (fun c hc => childrenOf_mem.mp hc)
        (childrenOf_nodup hwf.2.2.1 i) (fun c _ j _ => by simp)
      rw [removeIds_nil, List.nil_append] at hRC
      have hino : i ∉ postList (postN f' s) (childrenOf s i) := by
        intro hmem
        rcases mem_postList.mp hmem with ⟨c, hc, hj⟩
        have hic : (i, c) ∈ s.edges := childrenOf_mem.mp hc
        have hle : c ≤ i := (postN_sub_desc hj).le_of_wf hwf
        have hlt : i < c := (hwf.2.1 _ hic).2.2
        omega
      cases hlw : lookupNode s i with
      | none =>
        unfold alive at hal
        rw [hlw] at hal
        simp at hal
      | some w =>
        have hlw1 : lookupNode
            (removeIds s (postList (postN f' s) (childrenOf s i))) i = some w := by
          rw [lookup_removeIds hino]
          exact hlw
        simp only [rmNodeA, hRC, hlw1, postN]
        rw [remove_one_eq_removeIds hlw1,
          removeIds_compose (fun j hj => by
            simp at hj
            exact hj ▸ hino)]
        unfold nodesOf
        rw [List.filterMap_append]
        simp [hlw]
theorem rm_node_ok {s : RootInner H} {h : Nat} (hwf : WF s) (hal : alive s h) :
    RootInner.rm_node s h
      = Except.ok (removeIds s (postN (s.nodes.length + 1) s h),
          nodesOf s (postN (s.nodes.length + 1) s h)) := by
  unfold RootInner.rm_node
  rw [rmNodeA_run (s.nodes.length + 1) s h hwf hal
    (by have := countGe_le_length s h; omega)]

theorem rm_node_dead {s : RootInner H} {h : Nat}
    (hch : ∀ e ∈ s.edges, e.1 ≠ h) (hlw : lookupNode s h = none) :
    RootInner.rm_node s h = Except.error () := by
  have hchl : childrenOf s h = [] := by
    unfold childrenOf
    have : s.edges.filter (fun e => e.1 == h) = [] := by
      apply List.filter_eq_nil_iff.mpr
      intro e he
      simp [hch e he]
    rw [this]
    rfl
  unfold RootInner.rm_node
  simp only [rmNodeA, hchl, rmChildren, hlw]

theorem ids_attach (s : RootInner H) :
    ∀ ids : List Nat, (∀ j ∈ ids, alive s j) →
      ((ids.filterMap (fun j => (lookupNode s j).map (fun w => (j, w)))).map Prod.fst = ids) ∧
      ((ids.filterMap (fun j => (lookupNode s j).map (fun w => (j, w)))).map
          (fun e => e.2.node) = nodesOf s ids) ∧
      ((ids.filterMap (fun j => (lookupNode s j).map (fun w => (j, w)))).map
          (fun e => e.2.full_path) = pathsOf s ids) ∧
      (∀ e ∈ ids.filterMap (fun j => (lookupNode s j).map (fun w => (j, w))),
        lookupNode s e.1 = some e.2) := by
  intro ids
  induction ids with
  | nil => intro _; refine ⟨rfl, rfl, rfl, by simp⟩
  | cons j rest ih =>
    intro hall
    have hj : alive s j := hall j (by simp)
    obtain ⟨ihm, ihn, ihp, ihl⟩ := ih (fun x hx => hall x (by simp [hx]))
    cases hlw : lookupNode s j with
    | none => unfold alive at hj; rw [hlw] at hj; simp at hj
    | some w =>
      refine ⟨?_, ?_, ?_, ?_⟩
      · simp [List.filterMap_cons, hlw, ihm]
      · simp [List.filterMap_cons, hlw, ihn, nodesOf]
      · simp [List.filterMap_cons, hlw, ihp, pathsOf]
      · intro e he
        simp [List.filterMap_cons, hlw] at he
        rcases he with he | ⟨a, _, w', hlw', heq⟩
        · subst he
          simpa using hlw
        · rw [← heq]
          simpa using hlw'


theorem emit_fields (s : RootInner H) (c : NamespaceChange) :
    (RootInner.emit s c).nodes = s.nodes ∧ (RootInner.emit s c).edges = s.edges ∧
    (RootInner.emit s c).index_map = s.index_map ∧
    (RootInner.emit s c).nextId = s.nextId ∧
    (RootInner.emit s c).root = s.root ∧
    (RootInner.emit s c).ns_change_send = s.ns_change_send := by
  unfold RootInner.emit
  by_cases h : s.ns_change_send <;> simp [h]

theorem add_node_at_ok_eq {s : RootInner H} {n : Node H} {pi : Nat} {pp : String}
    (h : (lookupNode s pi).isSome = true) :
    s.add_node_at n pi pp = AddResult.ok
      (RootInner.emit
        { s with nextId := s.nextId + 1
                 nodes := (s.nextId, ⟨pp ++ "/" ++ n.address, n⟩) :: s.nodes
                 index_map := mapInsert s.index_map (pp ++ "/" ++ n.address) s.nextId
                 edges := (pi, s.nextId) :: s.edges }
        (NamespaceChange.PathAdded (pp ++ "/" ++ n.address))) s.nextId := by
  unfold RootInner.add_node_at
  simp [h]

theorem add_node_at_panicked_eq {s : RootInner H} {n : Node H} {pi : Nat} {pp : String}
    (h : (lookupNode s pi).isSome = false) :
    s.add_node_at n pi pp = AddResult.panicked
      { s with nextId := s.nextId + 1
               nodes := (s.nextId, ⟨pp ++ "/" ++ n.address, n⟩) :: s.nodes
               index_map := mapInsert s.index_map (pp ++ "/" ++ n.address) s.nextId } := by
  unfold RootInner.add_node_at
  simp [h]

theorem lookup_cons_state {s s' : RootInner H} {k : Nat} {w : NodeWrapper H}
    (h : s'.nodes = (k, w) :: s.nodes) :
    lookupNode s' k = some w ∧ (∀ j, j ≠ k → lookupNode s' j = lookupNode s j) := by
  constructor
  · unfold lookupNode
    rw [h, List.find?_cons_of_pos _ (by simp)]
    rfl
  · intro j hj
    unfold lookupNode
    rw [h, List.find?_cons_of_neg _ (by simp [Ne.symm hj])]

theorem WF_insert {s core : RootInner H} (hwf : WF s) {fp : String} {n : Node H}
    (hnodes : core.nodes = (s.nextId, ⟨fp, n⟩) :: s.nodes)
    (hmap : core.index_map = mapInsert s.index_map fp s.nextId)
    (hnext : core.nextId = s.nextId + 1) (hroot : core.root = s.root)
    (hedges : core.edges = s.edges ∨
      (∃ p, p ∈ s.nodes.map Prod.fst ∧ core.edges = (p, s.nextId) :: s.edges)) :
    WF core ∧ lookupNode core s.nextId = some ⟨fp, n⟩ ∧
      (∀ j, j ≠ s.nextId → lookupNode core j = lookupNode s j) := by
  obtain ⟨h1, h2, h3, h4, h5, h6, h7, h8⟩ := hwf
  obtain ⟨hlk, hlk2⟩ := lookup_cons_state hnodes
  have hkeylt : ∀ j, j ∈ s.nodes.map Prod.fst → j < s.nextId := by
    intro j hj
    rcases List.mem_map.mp hj with ⟨e, he, hk⟩
    exact hk ▸ h5 e he
  have hnidfresh : s.nextId ∉ s.nodes.map Prod.fst := by
    intro hmem
    have := hkeylt _ hmem
    omega
  have halive_lt : ∀ j, alive s j → j < s.nextId :=
    fun j hj => hkeylt j (alive_iff_mem_keys.mp hj)
  have hlookup_pres : ∀ j, alive s j → lookupNode core j = lookupNode s j := by
    intro j hj
    exact hlk2 j (by have := halive_lt j hj; omega)
  have halive_pres : ∀ j, alive s j → alive core j := by
    intro j hj
    unfold alive
    rw [hlookup_pres j hj]
    exact hj
  refine ⟨⟨?_, ?_, ?_, ?_, ?_, ?_, ?_, ?_⟩, hlk, hlk2⟩
  · rw [hnodes]
    simp only [List.map_cons]
    exact List.nodup_cons.mpr ⟨hnidfresh, h1⟩
  · have hold : ∀ e ∈ s.edges, alive core e.1 ∧ alive core e.2 ∧ e.1 < e.2 := by
      intro e hee
      obtain ⟨a1, a2, lt⟩ := h2 e hee
      exact ⟨halive_pres _ a1, halive_pres _ a2, lt⟩
    rcases hedges with he | ⟨p, hp, he⟩
    · rw [he]
      exact hold
    · rw [he]
      intro e hee
      rcases List.mem_cons.mp hee with rfl | hee'
      · refine ⟨halive_pres _ (alive_iff_mem_keys.mpr hp), ?_, hkeylt p hp⟩
        unfold alive
        rw [hlk]
        rfl
      · exact hold e hee'
  · rcases hedges with he | ⟨p, hp, he⟩
    · rw [he]
      exact h3
    · rw [he]
      simp only [List.map_cons]
      refine List.nodup_cons.mpr ⟨?_, h3⟩
      intro hmem
      rcases List.mem_map.mp hmem with ⟨e, hee, hk⟩
      have := (h2 e hee).2.1
      have := halive_lt _ this
      omega
  · rcases hedges with he | ⟨p, hp, he⟩
    · rw [he, hroot]
      exact h4
    · rw [he, hroot]
      intro e hee
      rcases List.mem_cons.mp hee with rfl | hee'
      · simp only
        omega
      · exact h4 e hee'
  · rw [hnodes, hnext]
    intro e hee
    rcases List.mem_cons.mp hee with rfl | hee'
    · simp
    · have := h5 e hee'
      omega
  · rw [hroot, hnext]
    omega
  · rw [hmap]
    unfold mapInsert
    simp only [List.map_cons]
    refine List.nodup_cons.mpr ⟨?_, ?_⟩
    · intro hmem
      rcases List.mem_map.mp hmem with ⟨e, hee, hk⟩
      have := (List.mem_filter.mp hee).2
      simp at this
      exact this hk
    · exact ((List.filter_sublist _).map Prod.fst).nodup h7
  · rw [hmap]
    unfold mapInsert
    intro pe hpe
    rcases List.mem_cons.mp hpe with rfl | hpe'
    · simp only
      rw [hlk]
      rfl
    · have hmem : pe ∈ s.index_map := (List.mem_filter.mp hpe').1
      have hres := h8 pe hmem
      cases hlw : lookupNode s pe.2 with
      | none => rw [hlw] at hres; simp at hres
      | some w =>
        have hali : alive s pe.2 := alive_of_lookup hlw
        rw [hlookup_pres _ hali]
        exact hres

theorem add_node_ok_cases {s : RootInner H} {n : Node H} {parent : Option Nat}
    {s' : RootInner H} {nid : Nat} (h : s.add_node n parent = AddResult.ok s' nid) :
    ∃ (p : Nat) (pp : String),
      p ∈ s.nodes.map Prod.fst ∧
      nid = s.nextId ∧
      s'.nodes = (s.nextId, ⟨pp ++ "/" ++ n.address, n⟩) :: s.nodes ∧
      s'.edges = (p, s.nextId) :: s.edges ∧
      s'.index_map = mapInsert s.index_map (pp ++ "/" ++ n.address) s.nextId ∧
      s'.nextId = s.nextId + 1 ∧ s'.root = s.root := by
  cases parent with
  | some p =>
    cases hlp : lookupNode s p with
    | none =>
      simp only [RootInner.add_node, hlp] at h
      exact AddResult.noConfusion h
    | some pw =>
      have hsome : (lookupNode s p).isSome = true := by rw [hlp]; rfl
      simp only [RootInner.add_node, hlp] at h
      rw [add_node_at_ok_eq hsome] at h
      injection h with hA hB
      obtain ⟨e1, e2, e3, e4, e5, _⟩ := emit_fields
        { s with nextId := s.nextId + 1
                 nodes := (s.nextId, ⟨pw.full_path ++ "/" ++ n.address, n⟩) :: s.nodes
                 index_map := mapInsert s.index_map (pw.full_path ++ "/" ++ n.address) s.nextId
                 edges := (p, s.nextId) :: s.edges }
        (NamespaceChange.PathAdded (pw.full_path ++ "/" ++ n.address))
      refine ⟨p, pw.full_path, alive_iff_mem_keys.mp (by unfold alive; rw [hlp]; rfl),
        hB.symm, ?_, ?_, ?_, ?_, ?_⟩
      · rw [← hA, e1]
      · rw [← hA, e2]
      · rw [← hA, e3]
      · rw [← hA, e4]
      · rw [← hA, e5]
  | none =>
    by_cases hroot : (lookupNode s s.root).isSome = true
    · unfold RootInner.add_node at h
      rw [add_node_at_ok_eq hroot] at h
      injection h with hA hB
      obtain ⟨e1, e2, e3, e4, e5, _⟩ := emit_fields
        { s with nextId := s.nextId + 1
                 nodes := (s.nextId, ⟨"" ++ "/" ++ n.address, n⟩) :: s.nodes
                 index_map := mapInsert s.index_map ("" ++ "/" ++ n.address) s.nextId
                 edges := (s.root, s.nextId) :: s.edges }
        (NamespaceChange.PathAdded ("" ++ "/" ++ n.address))
      refine ⟨s.root, "", alive_iff_mem_keys.mp hroot, hB.symm, ?_, ?_, ?_, ?_, ?_⟩
      · rw [← hA, e1]
      · rw [← hA, e2]
      · rw [← hA, e3]
      · rw [← hA, e4]
      · rw [← hA, e5]
    · have hfalse : (lookupNode s s.root).isSome = false := by
        revert hroot
        cases (lookupNode s s.root).isSome <;> simp
      simp only [RootInner.add_node] at h
      rw [add_node_at_panicked_eq hfalse] at h
      exact AddResult.noConfusion h

theorem add_node_panicked_cases {s : RootInner H} {n : Node H} {parent : Option Nat}
    {s1 : RootInner H} (h : s.add_node n parent = AddResult.panicked s1) :
    ∃ pp : String,
      s1.nodes = (s.nextId, ⟨pp ++ "/" ++ n.address, n⟩) :: s.nodes ∧
      s1.edges = s.edges ∧
      s1.index_map = mapInsert s.index_map (pp ++ "/" ++ n.address) s.nextId ∧
      s1.nextId = s.nextId + 1 ∧ s1.root = s.root := by
  cases parent with
  | some p =>
    cases hlp : lookupNode s p with
    | none =>
      simp only [RootInner.add_node, hlp] at h
      exact AddResult.noConfusion h
    | some pw =>
      have hsome : (lookupNode s p).isSome = true := by rw [hlp]; rfl
      simp only [RootInner.add_node, hlp] at h
      rw [add_node_at_ok_eq hsome] at h
      exact AddResult.noConfusion h
  | none =>
    by_cases hroot : (lookupNode s s.root).isSome = true
    · unfold RootInner.add_node at h
      rw [add_node_at_ok_eq hroot] at h
      simp at h
    · have hfalse : (lookupNode s s.root).isSome = false := by
        revert hroot
        cases (lookupNode s s.root).isSome <;> simp
      simp only [RootInner.add_node] at h
      rw [add_node_at_panicked_eq hfalse] at h
      injection h with hA
      exact ⟨"", by rw [← hA], by rw [← hA], by rw [← hA], by rw [← hA], by rw [← hA]⟩

theorem runStep_base {r : RunState H} {op : Op H} (h : InvBase r) :
    InvBase (runStep r op) := by
  by_cases hp : r.poisoned = true
  · simp only [runStep, hp, if_true]
    exact h
  · have hpf : r.poisoned = false := by
      revert hp
      cases r.poisoned <;> simp
    cases op with
    | add n parent =>
      cases hadd : r.st.add_node n parent with
      | err n' msg =>
        simp only [runStep, hpf, Bool.false_eq_true, if_false, hadd]
        exact h
      | ok s' nid =>
        simp only [runStep, hpf, Bool.false_eq_true, if_false, hadd]
        obtain ⟨p, pp, hpmem, hnid, hnodes, hedges, hmap, hnext, hroot⟩ :=
          add_node_ok_cases hadd
        obtain ⟨hwf', hlk, _⟩ := WF_insert h.1 hnodes hmap hnext hroot
          (Or.inr ⟨p, hpmem, hedges⟩)
        constructor
        · exact hwf'
        · intro e he
          simp only
          rw [hnodes] at he
          rcases List.mem_cons.mp he with rfl | he'
          · apply List.mem_append.mpr
            apply Or.inr
            have hpath : (s'.handle_to_path nid).getD "" = pp ++ "/" ++ n.address := by
              unfold RootInner.handle_to_path
              rw [hnid, hlk]
              rfl
            rw [hpath]
            simp [hnid]
          · exact List.mem_append.mpr (Or.inl (h.2 e he'))
      | panicked s1 =>
        simp only [runStep, hpf, Bool.false_eq_true, if_false, hadd]
        obtain ⟨pp, hnodes, hedges, hmap, hnext, hroot⟩ := add_node_panicked_cases hadd
        obtain ⟨hwf', hlk, _⟩ := WF_insert h.1 hnodes hmap hnext hroot (Or.inl hedges)
        constructor
        · exact hwf'
        · intro e he
          simp only
          rw [hnodes] at he
          rcases List.mem_cons.mp he with rfl | he'
          · apply List.mem_append.mpr
            apply Or.inr
            have hpath : (s1.handle_to_path r.st.nextId).getD "" = pp ++ "/" ++ n.address := by
              unfold RootInner.handle_to_path
              rw [hlk]
              rfl
            rw [hpath]
            simp
          · exact List.mem_append.mpr (Or.inl (h.2 e he'))
    | rm hdl =>
      by_cases hal : alive r.st hdl
      · simp only [runStep, hpf, Bool.false_eq_true, if_false, rm_node_ok h.1 hal]
        constructor
        · exact WF_removeIds h.1 _
        · intro e he
          exact h.2 e (List.mem_filter.mp he).1
      · have hdead : r.st.rm_node hdl = Except.error () := by
          apply rm_node_dead
          · intro e hee heq
            exact hal (heq ▸ (h.1.2.1 e hee).1)
          · cases hlw : lookupNode r.st hdl with
            | none => rfl
            | some w => exact absurd (alive_of_lookup hlw) hal
        simp only [runStep, hpf, Bool.false_eq_true, if_false, hdead]
        exact h

theorem runFold_base :
    ∀ (ops : List (Op H)) (r : RunState H), InvBase r → InvBase (ops.foldl runStep r) := by
  intro ops
  induction ops with
  | nil => intro r h; exact h
  | cons op rest ih =>
    intro r h
    rw [List.foldl_cons]
    exact ih _ (runStep_base h)

theorem runStep_paths {r : RunState H} {op : Op H} (hb : InvBase r)
    (hp : InvPaths r) (hc : freshCond r op = true) : InvPaths (runStep r op) := by
  by_cases hpo : r.poisoned = true
  · simp only [runStep, hpo, if_true]
    exact hp
  · have hpf : r.poisoned = false := by
      revert hpo
      cases r.poisoned <;> simp
    cases op with
    | add n parent =>
      cases hadd : r.st.add_node n parent with
      | err n' msg =>
        simp only [runStep, hpf, Bool.false_eq_true, if_false, hadd]
        exact hp
      | ok s' nid =>
        simp only [runStep, hpf, Bool.false_eq_true, if_false, hadd]
        obtain ⟨p, pp, hpmem, hnid, hnodes, hedges, hmap, hnext, hroot⟩ :=
          add_node_ok_cases hadd
        obtain ⟨hwf', hlk, _⟩ := WF_insert hb.1 hnodes hmap hnext hroot
          (Or.inr ⟨p, hpmem, hedges⟩)
        have hpath : (s'.handle_to_path nid).getD "" = pp ++ "/" ++ n.address := by
          unfold RootInner.handle_to_path
          rw [hnid, hlk]
          rfl
        simp only [freshCond, hadd] at hc
        rw [List.all_eq_true] at hc
        have hfresh : ∀ e ∈ r.st.nodes, e.2.full_path ≠ pp ++ "/" ++ n.address := by
          intro e he
          have := hc e he
          rw [hpath] at this
          simpa using this
        constructor
        · simp only
          rw [hnodes]
          simp only [List.map_cons]
          refine List.nodup_cons.mpr ⟨?_, hp.1⟩
          intro hmem
          rcases List.mem_map.mp hmem with ⟨e, he, hk⟩
          exact hfresh e he hk
        · intro e he
          simp only at he ⊢
          rw [hnodes] at he
          rw [hmap]
          unfold mapInsert
          rcases List.mem_cons.mp he with rfl | he'
          · exact List.mem_cons_self _ _
          · apply List.mem_cons.mpr
            apply Or.inr
            apply List.mem_filter.mpr
            refine ⟨hp.2 e he', ?_⟩
            simp [hfresh e he']
      | panicked s1 =>
        simp only [runStep, hpf, Bool.false_eq_true, if_false, hadd]
        obtain ⟨pp, hnodes, hedges, hmap, hnext, hroot⟩ := add_node_panicked_cases hadd
        obtain ⟨hwf', hlk, _⟩ := WF_insert hb.1 hnodes hmap hnext hroot (Or.inl hedges)
        have hpath : (s1.handle_to_path r.st.nextId).getD "" = pp ++ "/" ++ n.address := by
          unfold RootInner.handle_to_path
          rw [hlk]
          rfl
        simp only [freshCond, hadd] at hc
        rw [List.all_eq_true] at hc
        have hfresh : ∀ e ∈ r.st.nodes, e.2.full_path ≠ pp ++ "/" ++ n.address := by
          intro e he
          have := hc e he
          rw [hpath] at this
          simpa using this
        constructor
        · simp only
          rw [hnodes]
          simp only [List.map_cons]
          refine List.nodup_cons.mpr ⟨?_, hp.1⟩
          intro hmem
          rcases List.mem_map.mp hmem with ⟨e, he, hk⟩
          exact hfresh e he hk
        · intro e he
          simp only at he ⊢
          rw [hnodes] at he
          rw [hmap]
          unfold mapInsert
          rcases List.mem_cons.mp he with rfl | he'
          · exact List.mem_cons_self _ _
          · apply List.mem_cons.mpr
            apply Or.inr
            apply List.mem_filter.mpr
            refine ⟨hp.2 e he', ?_⟩
            simp [hfresh e he']
    | rm hdl =>
      by_cases hal : alive r.st hdl
      · simp only [runStep, hpf, Bool.false_eq_true, if_false, rm_node_ok hb.1 hal]
        constructor
        · exact ((List.filter_sublist _).map _).nodup hp.1
        · intro e he
          simp only at he ⊢
          rw [removeIds_nodes] at he
          rw [removeIds_map]
          have he1 : e ∈ r.st.nodes := (List.mem_filter.mp he).1
          have he2 : e.1 ∉ postN (r.st.nodes.length + 1) r.st hdl := by
            have := (List.mem_filter.mp he).2
            simp at this
            exact this
          apply List.mem_filter.mpr
          refine ⟨hp.2 e he1, ?_⟩
          have hnot : e.2.full_path ∉ pathsOf r.st (postN (r.st.nodes.length + 1) r.st hdl) := by
            intro hin
            unfold pathsOf at hin
            rcases List.mem_filterMap.mp hin with ⟨j, hjD, hj⟩
            rcases Option.map_eq_some'.mp hj with ⟨w, hlw, hwp⟩
            have hjmem : (j, w) ∈ r.st.nodes := lookupNode_mem hlw
            have heq : (j, w) = e :=
              List.inj_on_of_nodup_map hp.1 hjmem he1 hwp
            apply he2
            rw [← heq] at he2 ⊢
            exact hjD
          simpa using hnot
      · have hdead : r.st.rm_node hdl = Except.error () := by
          apply rm_node_dead
          · intro e hee heq
            exact hal (heq ▸ (hb.1.2.1 e hee).1)
          · cases hlw : lookupNode r.st hdl with
            | none => rfl
            | some w => exact absurd (alive_of_lookup hlw) hal
        simp only [runStep, hpf, Bool.false_eq_true, if_false, hdead]
        exact hp

theorem runFold_paths :
    ∀ (ops : List (Op H)) (r : RunState H), InvBase r → InvPaths r →
      freshRun r ops = true → InvPaths (ops.foldl runStep r) := by
  intro ops
  induction ops with
  | nil =>
    intro r _ hp _
    exact hp
  | cons op rest ih =>
    intro r hb hp hf
    rw [List.foldl_cons]
    simp only [freshRun, Bool.and_eq_true] at hf
    exact ih _ (runStep_base hb) (runStep_paths hb hp hf.1) hf.2

theorem initRun_base : InvBase (initRun : RunState H) := by
  refine ⟨⟨?_, ?_, ?_, ?_, ?_, ?_, ?_, ?_⟩, ?_⟩ <;>
    simp [initRun, RootInner.new, RootInner.ns_change_recv, alive, lookupNode]

theorem initRun_paths : InvPaths (initRun : RunState H) := by
  refine ⟨?_, ?_⟩ <;>
    simp [initRun, RootInner.new, RootInner.ns_change_recv]

/-- C2 counterexample: after adding two containers both addressed `foo`
under the root, the first one (handle 1) is still a live node with full path
`/foo`, but the path→id map no longer has an entry for it — `add_node` of
the second sibling overwrote the entry for the shared path with handle 2 —
so the map is not exactly the set of live nodes. -/
theorem tree_map_overwrite_cex :
    (1, (⟨"/foo", Node.Container "foo" none⟩ : NodeWrapper Unit))
      ∈ (runOps opsDup).st.nodes ∧
    ("/foo", 1) ∉ (runOps opsDup).st.index_map ∧
    ("/foo", 2) ∈ (runOps opsDup).st.index_map := by
  refine ⟨lookupNode_mem rfl, by decide, by decide⟩

/-- C2 (corrected): for every add/rm sequence run against a fresh tree,
every live handle's `handle_to_path` is exactly the full path recorded when
the node was inserted, and every path→id map entry resolves to a live node
whose `full_path` is the key; the converse inclusion — every live node has
its map entry, i.e. the map is exactly the set of live nodes — holds
whenever no operation of the run inserts a node at a full path some live
node already carries (`freshRun`), and fails otherwise (see the
counterexample: a sibling-address collision overwrites the shared entry). -/
theorem tree_invariants (H : Type) (ops : List (Op H)) :
    (∀ i p, (runOps ops).st.handle_to_path i = some p →
      (i, p) ∈ (runOps ops).log) ∧
    (∀ pe ∈ (runOps ops).st.index_map,
      (lookupNode (runOps ops).st pe.2).map (fun w => w.full_path) = some pe.1) ∧
    (freshRun initRun ops = true →
      ∀ e ∈ (runOps ops).st.nodes,
        (e.2.full_path, e.1) ∈ (runOps ops).st.index_map) := by
  have hb : InvBase (runOps ops) := runFold_base ops initRun initRun_base
  refine ⟨?_, ?_, ?_⟩
  · intro i p hip
    unfold RootInner.handle_to_path at hip
    rcases Option.map_eq_some'.mp hip with ⟨w, hlw, hwp⟩
    rw [← hwp]
    exact hb.2 (i, w) (lookupNode_mem hlw)
  · intro pe hpe
    exact hb.1.2.2.2.2.2.2.2 pe hpe
  · intro hf
    exact (runFold_paths ops initRun initRun_base initRun_paths hf).2

/-- C2 witness: the invariant theorem applied to the one-add collision-free
run `opsOne`, whose `freshRun` side condition holds by computation: the
container added at handle 1 has its map entry. -/
theorem tree_invariants_witness :
    freshRun initRun opsOne = true ∧
    ("/foo", 1) ∈ (runOps opsOne).st.index_map :=
  ⟨by decide, (tree_invariants Unit opsOne).2.2 (by decide)
    (1, ⟨"/foo", Node.Container "foo" none⟩) (lookupNode_mem rfl)⟩

/-- C1 (confirmed): on every well-formed tree (the run-invariant theorems
show well-formedness holds for every tree built by `add_node`/`rm_node` from
a fresh root) and every handle referring to a live node, with the
namespace-change channel registered, `rm_node` returns exactly the nodes of
the subtree rooted at the handle — membership of the removed ids coincides
with `Desc` — in an order where no node precedes any of its descendants
(leaves first), emits exactly one `PathRemoved` event per removed node in
that same order, and a second `rm_node` with the same handle returns an
error instead of a node list. -/
theorem rm_node_spec (H : Type) (s : RootInner H) (h : Nat)
    (hwf : WF s) (hal : alive s h) (hns : s.ns_change_send = true) :
    ∃ l : List (Nat × NodeWrapper H),
      (∀ e ∈ l, lookupNode s e.1 = some e.2) ∧
      RootInner.rm_node s h
        = Except.ok (removeIds s (l.map Prod.fst), l.map (fun e => e.2.node)) ∧
      (removeIds s (l.map Prod.fst)).events
        = s.events ++ l.map (fun e => NamespaceChange.PathRemoved e.2.full_path) ∧
      (∀ j, j ∈ l.map Prod.fst ↔ Desc s h j) ∧
      (l.map Prod.fst).Nodup ∧
      (l.map Prod.fst).Pairwise (fun a b => ¬ Desc s a b) ∧
      RootInner.rm_node (removeIds s (l.map Prod.fst)) h = Except.error () := by
  have hcnt : countGe s h < s.nodes.length + 1 := by
    have := countGe_le_length s h
    omega
  have hall : ∀ j ∈ postN (s.nodes.length + 1) s h, alive s j :=
    fun j hj => desc_alive hwf hal (postN_sub_desc hj)
  obtain ⟨hm, hn, hp, hl⟩ := ids_attach s (postN (s.nodes.length + 1) s h) hall
  have hh : h ∈ postN (s.nodes.length + 1) s h := postN_self_mem (by omega)
  refine ⟨(postN (s.nodes.length + 1) s h).filterMap
      (fun j => (lookupNode s j).map (fun w => (j, w))), hl, ?_, ?_, ?_, ?_, ?_, ?_⟩
  · rw [hm, hn]
    exact rm_node_ok hwf hal
  · rw [hm, removeIds_events, hns, ← hp, List.map_map]
    simp [Function.comp]
  · intro j
    rw [hm]
    exact postN_mem_iff hwf hal hcnt
  · rw [hm]
    exact (postN_nodup_pairwise hwf hal hcnt).1
  · rw [hm]
    exact (postN_nodup_pairwise hwf hal hcnt).2
  · rw [hm]
    apply rm_node_dead
    · intro e he heq
      have he2 := (List.mem_filter.mp he).2
      simp at he2
      exact he2.1 (heq ▸ hh)
    · have hfind : (removeIds s (postN (s.nodes.length + 1) s h)).nodes.find?
          (fun e => e.1 == h) = none := by
        apply List.find?_eq_none.mpr
        intro x hx
        have hx2 := (List.mem_filter.mp hx).2
        simp at hx2 ⊢
        intro heq
        exact hx2 (heq ▸ hh)
      unfold lookupNode
      rw [hfind]
      rfl

/-- C1 witness: the removal theorem applied to the container at handle 1 of
`exampleTree`. -/
theorem rm_node_spec_witness :
    WF exampleTree ∧ alive exampleTree 1 ∧ exampleTree.ns_change_send = true ∧
      (∃ l : List (Nat × NodeWrapper Unit),
        (∀ e ∈ l, lookupNode exampleTree e.1 = some e.2) ∧
        RootInner.rm_node exampleTree 1
          = Except.ok (removeIds exampleTree (l.map Prod.fst), l.map (fun e => e.2.node)) ∧
        (removeIds exampleTree (l.map Prod.fst)).events
          = exampleTree.events
            ++ l.map (fun e => NamespaceChange.PathRemoved e.2.full_path) ∧
        (∀ j, j ∈ l.map Prod.fst ↔ Desc exampleTree 1 j) ∧
        (l.map Prod.fst).Nodup ∧
        (l.map Prod.fst).Pairwise (fun a b => ¬ Desc exampleTree a b) ∧
        RootInner.rm_node (removeIds exampleTree (l.map Prod.fst)) 1
          = Except.error ()) :=
  ⟨by decide, by decide, rfl, rm_node_spec Unit exampleTree 1 (by decide) (by decide) rfl⟩

theorem OscTypeWrapper.jsonList_map (l : List OscType) :
    OscTypeWrapper.json.jsonList l = l.map OscTypeWrapper.json := by
  induction l with
  | nil => rfl
  | cons x xs ih => simp [OscTypeWrapper.json.jsonList, ih]

theorem ParamSet.update_with_of_supported (p : ParamSet) (x : OscType)
    (h : x.dispatch_supported = true) : p.update_with x = some (p.spec_write x) := by
  cases x with
  | Blob v => simp [OscType.dispatch_supported] at h
  | Color red green blue alpha => simp [OscType.dispatch_supported] at h
  | Array content => simp [OscType.dispatch_supported] at h
  | Nil => simp [OscType.dispatch_supported] at h
  | Inf => simp [OscType.dispatch_supported] at h
  | Int v => cases p <;> rfl
  | Float v => cases p <;> rfl
  | String v => cases p <;> rfl
  | Time v => cases p <;> rfl
  | Long v => cases p <;> rfl
  | Double v => cases p <;> rfl
  | Char v => cases p <;> rfl
  | Midi v => cases p <;> rfl
  | Bool v => cases p <;> rfl

theorem ParamGetSet.update_with_getset_supported (p : ParamGetSet) (x : OscType)
    (h : x.dispatch_supported = true) : p.update_with x = some (p.spec_write x) := by
  cases x with
  | Blob v => simp [OscType.dispatch_supported] at h
  | Color red green blue alpha => simp [OscType.dispatch_supported] at h
  | Array content => simp [OscType.dispatch_supported] at h
  | Nil => simp [OscType.dispatch_supported] at h
  | Inf => simp [OscType.dispatch_supported] at h
  | Int v => cases p <;> rfl
  | Float v => cases p <;> rfl
  | String v => cases p <;> rfl
  | Time v => cases p <;> rfl
  | Long v => cases p <;> rfl
  | Double v => cases p <;> rfl
  | Char v => cases p <;> rfl
  | Midi v => cases p <;> rfl
  | Bool v => cases p <;> rfl

theorem osc_update_params_supported (ps : List ParamSet) (args : List OscType)
    (h : ∀ x ∈ args, x.dispatch_supported = true) :
    osc_update_params ps args = some (dispatch_spec ps args) := by
  induction ps generalizing args with
  | nil => cases args <;> rfl
  | cons p ps ih =>
    cases args with
    | nil => rfl
    | cons x xs =>
      have hx : x.dispatch_supported = true := h x (by simp)
      have hxs : ∀ y ∈ xs, y.dispatch_supported = true := fun y hy => h y (by simp [hy])
      simp [osc_update_params, dispatch_spec, ParamSet.update_with_of_supported p x hx, ih xs hxs]

theorem osc_update_params_getset_supported (ps : List ParamGetSet) (args : List OscType)
    (h : ∀ x ∈ args, x.dispatch_supported = true) :
    osc_update_params_getset ps args = some (dispatch_spec_getset ps args) := by
  induction ps generalizing args with
  | nil => cases args <;> rfl
  | cons p ps ih =>
    cases args with
    | nil => rfl
    | cons x xs =>
      have hx : x.dispatch_supported = true := h x (by simp)
      have hxs : ∀ y ∈ xs, y.dispatch_supported = true := fun y hy => h y (by simp [hy])
      simp [osc_update_params_getset, dispatch_spec_getset,
        ParamGetSet.update_with_getset_supported p x hx, ih xs hxs]

/-! ## Claim theorems -/

/-- C8: value-snapshot serialization maps each parameter's current value as
the spec describes it: `Int`/`Long` and `Float`/`Double` to JSON numbers,
`Bool` to a JSON bool, `String`/`Char` to JSON strings, `Time (sec, frac)`
to the 64-bit unsigned JSON number `(sec <<< 32) ||| frac`, `Midi` to JSON
null and `Array` to a JSON array of the same mapping applied recursively
(likewise through the `ParamGetSet` value wrapper). -/
theorem value_snapshot_serialization :
    (∀ v : Value Int, ParamGetValueWrapper.json (ParamGet.Int v) = Json.i32 v.value
      ∧ (Json.i32 v.value).isNumber = true) ∧
    (∀ v : Value Int, ParamGetValueWrapper.json (ParamGet.Long v) = Json.i64 v.value
      ∧ (Json.i64 v.value).isNumber = true) ∧
    (∀ v : Value F32, ParamGetValueWrapper.json (ParamGet.Float v) = Json.f32 v.value
      ∧ (Json.f32 v.value).isNumber = true) ∧
    (∀ v : Value F64, ParamGetValueWrapper.json (ParamGet.Double v) = Json.f64 v.value
      ∧ (Json.f64 v.value).isNumber = true) ∧
    (∀ v : Value Bool, ParamGetValueWrapper.json (ParamGet.Bool v) = Json.bool v.value) ∧
    (∀ v : Value String, ParamGetValueWrapper.json (ParamGet.String v) = Json.str v.value) ∧
    (∀ v : Value Char, ParamGetValueWrapper.json (ParamGet.Char v) = Json.str (String.mk [v.value])) ∧
    (∀ v : Value (Nat × Nat), ParamGetValueWrapper.json (ParamGet.Time v)
      = Json.u64 ((v.value.1 <<< 32) ||| v.value.2)
      ∧ (Json.u64 ((v.value.1 <<< 32) ||| v.value.2)).isNumber = true) ∧
    (∀ v : Value (Nat × Nat × Nat × Nat), ParamGetValueWrapper.json (ParamGet.Midi v) = Json.null) ∧
    (∀ v : Value (List OscType), ParamGetValueWrapper.json (ParamGet.Array v)
      = Json.arr (v.value.map OscTypeWrapper.json)) ∧
    (∀ p : ParamGetSet, ParamGetSetValueWrapper.json p = OscTypeWrapper.json p.render) := by
  refine ⟨fun v => ⟨rfl, rfl⟩, fun v => ⟨rfl, rfl⟩, fun v => ⟨rfl, rfl⟩, fun v => ⟨rfl, rfl⟩,
    fun v => rfl, fun v => rfl, fun v => rfl, fun v => ⟨rfl, rfl⟩, fun v => rfl, fun v => ?_,
    fun p => rfl⟩
  simp [ParamGetValueWrapper.json, ParamGet.render, OscTypeWrapper.json,
    OscTypeWrapper.jsonList_map]

/-- C9 counterexample: a write-only `Set` node carrying a `Bool` parameter
whose underlying value is `true` still renders the type tag `"F"`, because
`OSCTypeStr for ParamSet` cannot read the write-only value and always uses
`OscType::Bool(false)`; the claim predicts `"T"` here. -/
theorem set_bool_type_tag_cex :
    Node.type_string (Node.Set "b" none [ParamSet.Bool (Value.plain true)] (none : Option Unit))
        = some "F"
      ∧ (some "F" : Option String) ≠ some "T" :=
  ⟨rfl, by decide⟩

/-- C9 (corrected): a leaf node's type string is the in-order concatenation
of its parameters' tag characters; a `Bool` parameter contributes `"T"`/`"F"`
by its current value on `Get` and `GetSet` nodes, while on a write-only `Set`
node the contributed tag is always `"F"`. -/
theorem type_string_concat_bool_tags :
    (∀ (H : Type) (a : String) (d : Option String) (ps : List ParamGet),
      Node.type_string (H := H) (Node.Get a d ps)
        = some (String.join (ps.map ParamGet.osc_type_str))) ∧
    (∀ (H : Type) (a : String) (d : Option String) (ps : List ParamSet) (hd : Option H),
      Node.type_string (Node.Set a d ps hd)
        = some (String.join (ps.map ParamSet.osc_type_str))) ∧
    (∀ (H : Type) (a : String) (d : Option String) (ps : List ParamGetSet) (hd : Option H),
      Node.type_string (Node.GetSet a d ps hd)
        = some (String.join (ps.map ParamGetSet.osc_type_str))) ∧
    (∀ (H : Type) (a : String) (d : Option String),
      Node.type_string (H := H) (Node.Container a d) = none) ∧
    (∀ v : Value Bool, ParamGet.osc_type_str (ParamGet.Bool v) = if v.value then "T" else "F") ∧
    (∀ v : Value Bool, ParamGetSet.osc_type_str (ParamGetSet.Bool v) = if v.value then "T" else "F") ∧
    (∀ v : Value Bool, ParamSet.osc_type_str (ParamSet.Bool v) = "F") := by
  refine ⟨?_, ?_, ?_, ?_, ?_, ?_, ?_⟩
  · intro H a d ps; simp [Node.type_string, String.join, List.foldl_map]
  · intro H a d ps hd; simp [Node.type_string, String.join, List.foldl_map]
  · intro H a d ps hd; simp [Node.type_string, String.join, List.foldl_map]
  · intro H a d; rfl
  · intro v; simp [ParamGet.osc_type_str, OscType.osc_type_str]
  · intro v; simp [ParamGetSet.osc_type_str, OscType.osc_type_str]
  · intro v; rfl

/-- C4 counterexample: a mismatched-kind arg is not always skipped.  A `Set`
node with two `Int` parameters receiving `[Nil, Int 5]` aborts in the
`unimplemented!()` arm at the first arg instead of skipping it and applying
the second arg. -/
theorem osc_update_mismatch_cex :
    Node.osc_update (H := Unit) (M := Unit) (A := Unit) (fun _ _ _ _ => none)
        (Node.Set "x" none [ParamSet.Int (Value.plain 0), ParamSet.Int (Value.plain 0)] none)
        [OscType.Nil, OscType.Int 5] none none = none
      ∧ (none : Option (Option Unit × Node Unit))
          ≠ some (none, Node.Set "x" none
              [ParamSet.Int (Value.plain 0), ParamSet.Int (Value.plain 5)] none) :=
  ⟨rfl, fun h => Option.noConfusion h⟩

/-- C4 (corrected): for args restricted to the nine kinds the dispatch loop
supports (`Int`, `Float`, `String`, `Time`, `Long`, `Double`, `Char`,
`Midi`, `Bool`), `osc_update` on a `Set` or `GetSet` node first invokes the
optional user handler and then pairs args with parameters positionally: a
matching-kind arg is written through, a mismatched one is skipped while the
other args of the message are still applied, and parameters beyond the args
are untouched.  An arg of one of the other five kinds instead aborts the
loop (see the counterexample). -/
theorem osc_update_positional_dispatch :
    (∀ {H M A : Type} (hrun : H → List OscType → Option A → Option (Nat × Nat) → Option M)
      (a : String) (d : Option String) (ps : List ParamSet) (hd : Option H)
      (args : List OscType) (src : Option A) (time : Option (Nat × Nat)),
      (∀ x ∈ args, x.dispatch_supported = true) →
      Node.osc_update hrun (Node.Set a d ps hd) args src time
        = some ((match hd with | some hh => hrun hh args src time | none => none),
            Node.Set a d (dispatch_spec ps args) hd)) ∧
    (∀ {H M A : Type} (hrun : H → List OscType → Option A → Option (Nat × Nat) → Option M)
      (a : String) (d : Option String) (ps : List ParamGetSet) (hd : Option H)
      (args : List OscType) (src : Option A) (time : Option (Nat × Nat)),
      (∀ x ∈ args, x.dispatch_supported = true) →
      Node.osc_update hrun (Node.GetSet a d ps hd) args src time
        = some ((match hd with | some hh => hrun hh args src time | none => none),
            Node.GetSet a d (dispatch_spec_getset ps args) hd)) ∧
    (∀ (ps : List ParamSet) (args : List OscType),
      (dispatch_spec ps args).length = ps.length) ∧
    (∀ (p : ParamSet) (x : OscType), p.kind_matches x = false → p.spec_write x = p) ∧
    (∀ (ps : List ParamSet) (args : List OscType) (i : Nat) (p : ParamSet) (x : OscType),
      ps[i]? = some p → args[i]? = some x → (dispatch_spec ps args)[i]? = some (p.spec_write x)) ∧
    (∀ (ps : List ParamSet) (args : List OscType) (i : Nat) (p : ParamSet),
      ps[i]? = some p → args[i]? = none → (dispatch_spec ps args)[i]? = some p) := by
  refine ⟨?_, ?_, ?_, ?_, ?_, ?_⟩
  · intro H M A hrun a d ps hd args src time h
    simp [Node.osc_update, osc_update_params_supported ps args h]
  · intro H M A hrun a d ps hd args src time h
    simp [Node.osc_update, osc_update_params_getset_supported ps args h]
  · intro ps
    induction ps with
    | nil => intro args; cases args <;> rfl
    | cons p ps ih =>
      intro args
      cases args with
      | nil => rfl
      | cons x xs => simp [dispatch_spec, ih xs]
  · intro p x h
    cases p <;> cases x <;> first
      | rfl
      | simp [ParamSet.kind_matches] at h
  · intro ps
    induction ps with
    | nil => intro args i p x hp hx; simp at hp
    | cons q ps ih =>
      intro args i p x hp hx
      cases args with
      | nil => simp at hx
      | cons y ys =>
        cases i with
        | zero =>
          simp at hp hx
          subst hp; subst hx
          simp [dispatch_spec]
        | succ j =>
          simp only [List.getElem?_cons_succ] at hp hx
          simpa [dispatch_spec] using ih ys j p x hp hx
  · intro ps
    induction ps with
    | nil => intro args i p hp hx; simp at hp
    | cons q ps ih =>
      intro args i p hp hx
      cases args with
      | nil =>
        simp [dispatch_spec]
        exact hp
      | cons y ys =>
        cases i with
        | zero => simp at hx
        | succ j =>
          simp only [List.getElem?_cons_succ] at hp hx
          simpa [dispatch_spec] using ih ys j p hp hx

/-- C4 witness: the corrected dispatch theorem applied to a `Set` node with
two `Int` parameters receiving a mismatched `Float` (skipped) followed by a
matching `Int 7` (applied). -/
theorem osc_update_positional_dispatch_witness :
    (∀ x ∈ [OscType.Float ⟨1⟩, OscType.Int 7], OscType.dispatch_supported x = true) ∧
    Node.osc_update (H := Unit) (M := Unit) (A := Unit) (fun _ _ _ _ => none)
        (Node.Set "x" none [ParamSet.Int (Value.plain 0), ParamSet.Int (Value.plain 0)] none)
        [OscType.Float ⟨1⟩, OscType.Int 7] none none
      = some (none, Node.Set "x" none
          (dispatch_spec [ParamSet.Int (Value.plain 0), ParamSet.Int (Value.plain 0)]
            [OscType.Float ⟨1⟩, OscType.Int 7]) none) :=
  ⟨by decide,
    osc_update_positional_dispatch.1 (fun _ _ _ _ => none) "x" none
      [ParamSet.Int (Value.plain 0), ParamSet.Int (Value.plain 0)] none
      [OscType.Float ⟨1⟩, OscType.Int 7] none none (by decide)⟩

/-- C5: the code does not reject `Blob`/`Color`/`Nil`/`Inf` args without
panicking; each of them, paired with a parameter, drives the dispatch loop
into the `unimplemented!()` arm (modelled by `none`). -/
theorem osc_update_unsupported_panic :
    osc_update_params [ParamSet.Int (Value.plain 0)] [OscType.Blob []] = none ∧
    osc_update_params [ParamSet.Int (Value.plain 0)] [OscType.Color 0 0 0 0] = none ∧
    osc_update_params [ParamSet.Int (Value.plain 0)] [OscType.Nil] = none ∧
    osc_update_params [ParamSet.Int (Value.plain 0)] [OscType.Inf] = none ∧
    osc_update_params_getset [ParamGetSet.Int (Value.plain 0)] [OscType.Nil] = none ∧
    Node.osc_update (H := Unit) (M := Unit) (A := Unit) (fun _ _ _ _ => none)
        (Node.Set "x" none [ParamSet.Int (Value.plain 0)] none) [OscType.Nil] none none
      = none :=
  ⟨rfl, rfl, rfl, rfl, rfl, rfl⟩

/-- C10 counterexample: a message containing an `Array` arg does not always
abort; when the `Array` arg is beyond the parameter list it is never paired
by the `zip`, so a `Set` node with one `Int` parameter receiving
`[Int 1, Array []]` succeeds and writes the first arg. -/
theorem array_arg_unpaired_cex :
    osc_update_params [ParamSet.Int (Value.plain 0)] [OscType.Int 1, OscType.Array []]
        = some [ParamSet.Int (Value.plain 1)]
      ∧ (some [ParamSet.Int (Value.plain 1)] : Option (List ParamSet)) ≠ none :=
  ⟨rfl, fun h => Option.noConfusion h⟩

/-- C10 (corrected): an `Array` arg that is positionally paired with a
parameter (its index is within the parameter list) always drives the
dispatch loop of a `Set` or `GetSet` node into the `unimplemented!()` panic
arm, even though `Array` is a storable parameter kind that `osc_render`
renders on output. -/
theorem array_arg_paired_panics :
    (∀ (ps : List ParamSet) (args : List OscType) (i : Nat) (l : List OscType),
      i < ps.length → args[i]? = some (OscType.Array l) → osc_update_params ps args = none) ∧
    (∀ (ps : List ParamGetSet) (args : List OscType) (i : Nat) (l : List OscType),
      i < ps.length → args[i]? = some (OscType.Array l)
        → osc_update_params_getset ps args = none) ∧
    (∀ v : Value (List OscType), ParamSet.osc_type_str (ParamSet.Array v) = "[]") ∧
    (∀ v : Value (List OscType), ParamGetSet.render (ParamGetSet.Array v) = OscType.Array v.value) ∧
    (∀ v : Value (List OscType), ParamGet.render (ParamGet.Array v) = OscType.Array v.value) := by
  refine ⟨?_, ?_, fun v => rfl, fun v => rfl, fun v => rfl⟩
  · intro ps
    induction ps with
    | nil => intro args i l hi hx; simp at hi
    | cons p ps ih =>
      intro args i l hi hx
      cases args with
      | nil => simp at hx
      | cons y ys =>
        cases i with
        | zero =>
          simp at hx
          subst hx
          rfl
        | succ j =>
          simp only [List.getElem?_cons_succ] at hx
          have hj : j < ps.length := by simpa using hi
          cases hpy : p.update_with y with
          | none => simp [osc_update_params, hpy]
          | some p2 => simp [osc_update_params, hpy, ih ys j l hj hx]
  · intro ps
    induction ps with
    | nil => intro args i l hi hx; simp at hi
    | cons p ps ih =>
      intro args i l hi hx
      cases args with
      | nil => simp at hx
      | cons y ys =>
        cases i with
        | zero =>
          simp at hx
          subst hx
          rfl
        | succ j =>
          simp only [List.getElem?_cons_succ] at hx
          have hj : j < ps.length := by simpa using hi
          cases hpy : p.update_with y with
          | none => simp [osc_update_params_getset, hpy]
          | some p2 => simp [osc_update_params_getset, hpy, ih ys j l hj hx]

/-- C10 witness: the paired-`Array` panic theorem applied to one `Int`
parameter receiving `[Array []]` at index 0. -/
theorem array_arg_paired_panics_witness :
    (0 < 1) ∧ ([OscType.Array []][0]? = some (OscType.Array []))
      ∧ osc_update_params [ParamSet.Int (Value.plain 0)] [OscType.Array []] = none :=
  ⟨by decide, rfl,
    array_arg_paired_panics.1 [ParamSet.Int (Value.plain 0)] [OscType.Array []] 0 []
      (by decide) rfl⟩

theorem handle_osc_packet_inner_eq {M A : Type}
    (upd : String → List OscType → Option A → Option (Nat × Nat) → Option M)
    (addr : Option A) :
    ∀ (p : OscPacket) (time : Option (Nat × Nat)),
      handle_osc_packet_inner upd p addr time =
        (if ((collect_messages p time).filterMap
              (fun mt => upd mt.1.addr mt.1.args addr mt.2)).isEmpty
         then none
         else some ((collect_messages p time).filterMap
              (fun mt => upd mt.1.addr mt.1.args addr mt.2))) := by
  have main : ∀ (n : Nat) (p : OscPacket), sizeOf p ≤ n → ∀ time,
      handle_osc_packet_inner upd p addr time =
        (if ((collect_messages p time).filterMap
              (fun mt => upd mt.1.addr mt.1.args addr mt.2)).isEmpty
         then none
         else some ((collect_messages p time).filterMap
              (fun mt => upd mt.1.addr mt.1.args addr mt.2))) := by
    intro n
    induction n with
    | zero => intro p hp; cases p <;> simp at hp
    | succ n ih =>
      intro p hp time
      cases p with
      | Message msg =>
        cases h : upd msg.addr msg.args addr time <;>
          simp [handle_osc_packet_inner, collect_messages, h]
      | Bundle timetag content =>
        have hlist : ∀ q ∈ content, sizeOf q ≤ n := by
          intro q hq
          have h1 : sizeOf q < sizeOf content := List.sizeOf_lt_of_mem hq
          have h2 : 1 + sizeOf timetag + sizeOf content
              = sizeOf (OscPacket.Bundle timetag content) := by simp
          have h3 : 0 < sizeOf timetag := by
            cases timetag
            simp only [Prod.mk.sizeOf_spec]
            omega
          omega
        have sub : ∀ (l : List OscPacket), (∀ q ∈ l, sizeOf q ≤ n) →
            ((collectInner upd l addr timetag).flatten
              = (collect_list l timetag).filterMap
                  (fun mt => upd mt.1.addr mt.1.args addr mt.2)) ∧
            ((collectInner upd l addr timetag).isEmpty
              = ((collect_list l timetag).filterMap
                  (fun mt => upd mt.1.addr mt.1.args addr mt.2)).isEmpty) := by
          intro l
          induction l with
          | nil => intro _; exact ⟨rfl, rfl⟩
          | cons q qs ihq =>
            intro hq
            have hq1 := ih q (hq q (by simp)) (some timetag)
            obtain ⟨e1, e2⟩ := ihq (fun r hr => hq r (by simp [hr]))
            cases hcq : (collect_messages q (some timetag)).filterMap
                (fun mt => upd mt.1.addr mt.1.args addr mt.2) with
            | nil =>
              have hnone : handle_osc_packet_inner upd q addr (some timetag) = none := by
                rw [hq1, hcq]; rfl
              constructor
              · simp [collectInner, hnone, collect_list, List.filterMap_append, hcq, e1]
              · simp [collectInner, hnone, collect_list, List.filterMap_append, hcq, e2]
            | cons c cs =>
              have hsome : handle_osc_packet_inner upd q addr (some timetag)
                  = some (c :: cs) := by
                rw [hq1, hcq]; rfl
              constructor
              · simp [collectInner, hsome, collect_list, List.filterMap_append, hcq, e1]
              · simp [collectInner, hsome, collect_list, List.filterMap_append, hcq]
        obtain ⟨e1, e2⟩ := sub content hlist
        simp only [handle_osc_packet_inner, collect_messages, e1, e2]
  intro p time
  exact main (sizeOf p) p le_rfl time

/-- C3 (confirmed): packet handling is two-phase.  The read-phase walk
(`handle_osc_packet_inner`, which never touches the tree state) collects, in
order, the deferred mutator of every message contained in the packet, with
each bundle passing its own timetag to its content; `handle_osc_packet` then
runs exactly the collected mutators, in the order the messages arrived,
against the state.  The second conjunct shows the spec-side flattening walks
a bundle's content in order, propagating the bundle's timetag to each
element. -/
theorem handle_osc_packet_two_phase :
    (∀ {M A σ : Type}
      (upd : String → List OscType → Option A → Option (Nat × Nat) → Option M)
      (run : σ → M → σ) (st : σ) (p : OscPacket) (addr : Option A)
      (time : Option (Nat × Nat)),
      handle_osc_packet upd run st p addr time =
        ((collect_messages p time).filterMap
          (fun mt => upd mt.1.addr mt.1.args addr mt.2)).foldl run st) ∧
    (∀ (content : List OscPacket) (timetag : Nat × Nat) (time : Option (Nat × Nat)),
      collect_messages (OscPacket.Bundle timetag content) time
        = (content.map (fun p => collect_messages p (some timetag))).flatten) := by
  constructor
  · intro M A σ upd run st p addr time
    have h := handle_osc_packet_inner_eq upd addr p time
    rw [handle_osc_packet, h]
    by_cases hl : ((collect_messages p time).filterMap
        (fun mt => upd mt.1.addr mt.1.args addr mt.2)) = []
    · simp [hl]
    · simp [hl]
  · intro content timetag time
    simp only [collect_messages]
    induction content with
    | nil => rfl
    | cons q qs ihq => simp [collect_list, ihq]

/-- C6 counterexample: `trigger` has no Get/GetSet gate.  The container at
handle 1 of `exampleTree` is looked up and rendered into a (no-args) message
addressed at its full path, and the facade's `trigger` returns `true`, where
the claim predicts no message and `false`. -/
theorem trigger_container_cex :
    OscService.trigger exampleTree 1 = some ⟨"/foo", []⟩
      ∧ OscQueryServer.trigger exampleTree 1 = true
      ∧ (some (⟨"/foo", []⟩ : OscMessage) : Option OscMessage) ≠ none :=
  ⟨rfl, rfl, fun h => Option.noConfusion h⟩

/-- C6 (corrected): `trigger(handle)`/`trigger_path(path)` render and send
an OSC message whose address is the node's `full_path` and whose args are
the node's rendered parameter values for every live node at the
handle/path — `Get`/`GetSet` nodes render one arg per parameter while
`Container`/`Set` nodes render an empty arg list — an unknown handle or path
produces no message, and the facade's `trigger`/`trigger_path` return `true`
exactly when a message was rendered. -/
theorem trigger_spec :
    (∀ (H : Type) (s : RootInner H) (handle : Nat) (w : NodeWrapper H),
      lookupNode s handle = some w →
      OscService.trigger s handle = some ⟨w.full_path, w.node.osc_render⟩) ∧
    (∀ (H : Type) (s : RootInner H) (handle : Nat),
      lookupNode s handle = none → OscService.trigger s handle = none) ∧
    (∀ (H : Type) (s : RootInner H) (path : String) (w : NodeWrapper H) (i : Nat),
      s.node_at_path path = some (w, i) →
      OscService.trigger_path s path = some ⟨w.full_path, w.node.osc_render⟩) ∧
    (∀ (H : Type) (s : RootInner H) (path : String),
      s.node_at_path path = none → OscService.trigger_path s path = none) ∧
    (∀ (H : Type) (s : RootInner H) (handle : Nat),
      OscQueryServer.trigger s handle = (OscService.trigger s handle).isSome) ∧
    (∀ (H : Type) (s : RootInner H) (path : String),
      OscQueryServer.trigger_path s path = (OscService.trigger_path s path).isSome) ∧
    (∀ (H : Type) (a : String) (d : Option String),
      Node.osc_render (H := H) (Node.Container a d) = []) ∧
    (∀ (H : Type) (a : String) (d : Option String) (ps : List ParamSet) (hd : Option H),
      Node.osc_render (Node.Set a d ps hd) = []) ∧
    (∀ (H : Type) (a : String) (d : Option String) (ps : List ParamGet),
      Node.osc_render (H := H) (Node.Get a d ps) = ps.map ParamGet.render) ∧
    (∀ (H : Type) (a : String) (d : Option String) (ps : List ParamGetSet) (hd : Option H),
      Node.osc_render (Node.GetSet a d ps hd) = ps.map ParamGetSet.render) := by
  refine ⟨?_, ?_, ?_, ?_, ?_, ?_, ?_, ?_, ?_, ?_⟩
  · intro H s handle w hw
    simp [OscService.trigger, OscService.render_and_send, hw]
  · intro H s handle hw
    simp [OscService.trigger, hw]
  · intro H s path w i hw
    simp [OscService.trigger_path, OscService.render_and_send, hw]
  · intro H s path hw
    simp [OscService.trigger_path, hw]
  · intro H s handle; rfl
  · intro H s path; rfl
  · intro H a d; rfl
  · intro H a d ps hd; rfl
  · intro H a d ps; rfl
  · intro H a d ps hd; rfl

/-- C6 witness: the corrected trigger theorem applied to the container at
handle 1 of `exampleTree`. -/
theorem trigger_spec_witness :
    lookupNode exampleTree 1 = some ⟨"/foo", Node.Container "foo" none⟩
      ∧ OscService.trigger exampleTree 1
          = some ⟨"/foo", (Node.Container "foo" none : Node Unit).osc_render⟩ :=
  ⟨rfl, trigger_spec.1 Unit exampleTree 1 ⟨"/foo", Node.Container "foo" none⟩ rfl⟩

/-- C7 counterexample: a GET for a path not in the namespace answers 404
with an empty body, not 204 — the JSON serialization of an unknown path
yields a custom error (`"path not in namespace"`), not null. -/
theorem http_unknown_path_cex :
    (Svc.call svcEx ⟨HttpMethod.GET, "/nope", none⟩).status = 404 ∧
    (Svc.call svcEx ⟨HttpMethod.GET, "/nope", none⟩).status ≠ 204 ∧
    (Svc.call svcEx ⟨HttpMethod.GET, "/nope", none⟩).body = HttpBody.empty :=
  ⟨rfl, by decide, rfl⟩

/-- C7 (corrected): a non-GET request answers 404 with an empty body; a GET
whose query is neither `HOST_INFO` nor a recognized `NodeQueryParam` answers
400 with the serde error text; a GET whose query is absent or parses
dispatches on the path serialization — a serialization **error** (which is
what a path outside the namespace produces, last conjunct) answers 404 with
an empty body, JSON null (a known path whose queried attribute does not
apply to the node kind) answers 204 with an empty body, and any other JSON
value answers 200 with the JSON body and content-type header. -/
theorem http_response_statuses (H : Type) (svc : Svc H) (req : HttpRequest) :
    (req.method ≠ HttpMethod.GET →
      Svc.call svc req = ⟨404, false, HttpBody.empty⟩) ∧
    (∀ q, req.method = HttpMethod.GET → req.query = some q →
      q ≠ "HOST_INFO" → parseNodeQueryParam q = none →
      Svc.call svc req = ⟨400, false, HttpBody.text (unknownVariantError q)⟩) ∧
    (∀ param, req.method = HttpMethod.GET →
      (req.query = none ∧ param = none ∨
        (∃ q p, req.query = some q ∧ q ≠ "HOST_INFO" ∧
          parseNodeQueryParam q = some p ∧ param = some p)) →
      ((PathSerializeWrapper.json svc.root req.path param = none →
          Svc.call svc req = ⟨404, false, HttpBody.empty⟩) ∧
       (PathSerializeWrapper.json svc.root req.path param = some Json.null →
          Svc.call svc req = ⟨204, false, HttpBody.empty⟩) ∧
       (∀ j, PathSerializeWrapper.json svc.root req.path param = some j →
          j ≠ Json.null →
          Svc.call svc req = ⟨200, true, HttpBody.json j⟩))) ∧
    (∀ p path, svc.root.node_at_path path = none →
      PathSerializeWrapper.json svc.root path p = none) := by
  obtain ⟨m, pth, qr⟩ := req
  refine ⟨?_, ?_, ?_, ?_⟩
  · intro hm
    cases m with
    | GET => exact absurd rfl hm
    | POST => rfl
    | PUT => rfl
    | DELETE => rfl
    | HEAD => rfl
  · intro q hm hq hne hp
    simp only at hm hq
    subst hm
    subst hq
    have hbeq : (q == "HOST_INFO") = false := by
      simp [hne]
    simp only [Svc.call, hbeq, Bool.false_eq_true, if_false, hp]
  · intro param hm hcase
    simp only at hm
    subst hm
    have hcall : Svc.call svc ⟨HttpMethod.GET, pth, qr⟩ = Svc.respond svc.root pth param := by
      rcases hcase with ⟨hq, hp⟩ | ⟨q, p, hq, hne, hp, hpar⟩
      · simp only at hq
        subst hq
        subst hp
        rfl
      · simp only at hq
        subst hq
        subst hpar
        have hbeq : (q == "HOST_INFO") = false := by
          simp [hne]
        simp only [Svc.call, hbeq, Bool.false_eq_true, if_false, hp]
    refine ⟨?_, ?_, ?_⟩
    · intro hser
      rw [hcall]
      unfold Svc.respond
      rw [hser]
    · intro hser
      rw [hcall]
      unfold Svc.respond
      rw [hser]
    · intro j hser hj
      rw [hcall]
      unfold Svc.respond
      rw [hser]
      cases j <;> first | rfl | exact absurd rfl hj
  · intro p path h
    unfold RootInner.node_at_path at h
    unfold PathSerializeWrapper.json
    cases hf : svc.root.index_map.find? (fun e => e.1 == path) with
    | none => simp only [hf]
    | some e =>
      simp only [hf] at h ⊢
      cases hlw : lookupNode svc.root e.2 with
      | none => simp only [hlw]
      | some w =>
        rw [hlw] at h
        simp at h

/-- C7 witness: the status theorem applied to concrete requests against
`svcEx` — a POST answers 404/empty, `GET /foo?NOPE` answers 400 with the
serde text, `GET /nope` (path not in the namespace) answers 404/empty, and
`GET /foo?VALUE` (a container has no value, so serialization yields null)
answers 204/empty. -/
theorem http_response_statuses_witness :
    (HttpMethod.POST ≠ HttpMethod.GET ∧
      Svc.call svcEx ⟨HttpMethod.POST, "/foo", none⟩ = ⟨404, false, HttpBody.empty⟩) ∧
    (parseNodeQueryParam "NOPE" = none ∧
      Svc.call svcEx ⟨HttpMethod.GET, "/foo", some "NOPE"⟩
        = ⟨400, false, HttpBody.text (unknownVariantError "NOPE")⟩) ∧
    (PathSerializeWrapper.json exampleTree "/nope" none = none ∧
      Svc.call svcEx ⟨HttpMethod.GET, "/nope", none⟩ = ⟨404, false, HttpBody.empty⟩) ∧
    (PathSerializeWrapper.json exampleTree "/foo" (some NodeQueryParam.Value)
        = some Json.null ∧
      Svc.call svcEx ⟨HttpMethod.GET, "/foo", some "VALUE"⟩
        = ⟨204, false, HttpBody.empty⟩) :=
  ⟨⟨by decide,
    (http_response_statuses Unit svcEx ⟨HttpMethod.POST, "/foo", none⟩).1 (by decide)⟩,
   ⟨rfl,
    (http_response_statuses Unit svcEx ⟨HttpMethod.GET, "/foo", some "NOPE"⟩).2.1
      "NOPE" rfl rfl (by decide) rfl⟩,
   ⟨rfl,
    ((http_response_statuses Unit svcEx ⟨HttpMethod.GET, "/nope", none⟩).2.2.1
      none rfl (Or.inl ⟨rfl, rfl⟩)).1 rfl⟩,
   ⟨rfl,
    ((http_response_statuses Unit svcEx ⟨HttpMethod.GET, "/foo", some "VALUE"⟩).2.2.1
      (some NodeQueryParam.Value) rfl
      (Or.inr ⟨"VALUE", NodeQueryParam.Value, rfl, by decide, rfl, rfl⟩)).2.1 rfl⟩⟩

end OscQuery
